import Mathlib

/-!
Verification of the ViaStitching via-placement engine.

The definitions below are a shallow embedding of the Python sources
`src/ipc/viastitching_ipc.py` and `src/viastitching_dialog.py`.
Python floats are modelled by exact fractions (`Q` below); integer board
coordinates stay integers.  Python `//` and `%` on integers agree with
Lean's `Int` division and modulo for positive divisors (both are floor
based there), which is the only regime exercised by validated inputs.
-/

namespace ViaStitching

/-- Exact fraction with positive denominator, not normalised.  This models
the exact real value computed by the source's floating-point expressions;
all operations are plain structural recursion so that concrete runs can be
evaluated by the kernel. -/
structure Q where
  num : ℤ
  den : ℤ
  den_pos : 0 < den

/-- Embed an integer. -/
def Q.ofInt (z : ℤ) : Q := ⟨z, 1, one_pos⟩

/-- Fraction addition. -/
def Q.add (a b : Q) : Q :=
  ⟨a.num * b.den + b.num * a.den, a.den * b.den, mul_pos a.den_pos b.den_pos⟩

/-- Fraction negation. -/
def Q.neg (a : Q) : Q := ⟨-a.num, a.den, a.den_pos⟩

/-- Fraction subtraction. -/
def Q.sub (a b : Q) : Q := a.add b.neg

/-- Fraction multiplication. -/
def Q.mul (a b : Q) : Q :=
  ⟨a.num * b.num, a.den * b.den, mul_pos a.den_pos b.den_pos⟩

/-- Fraction division; division by zero yields `0`, a case never reached by
validated runs (Python would raise `ZeroDivisionError`). -/
def Q.div (a b : Q) : Q :=
  if h : 0 < b.num then ⟨a.num * b.den, a.den * b.num, mul_pos a.den_pos h⟩
  else if h2 : b.num < 0 then
    ⟨-(a.num * b.den), -(a.den * b.num), by
      have := mul_pos a.den_pos (neg_pos.mpr h2)
      rw [mul_neg] at this
      omega⟩
  else Q.ofInt 0

/-- Comparison `a <= b`, by cross multiplication (denominators positive). -/
def Q.le (a b : Q) : Bool := decide (a.num * b.den ≤ b.num * a.den)

/-- Comparison `a < b`. -/
def Q.lt (a b : Q) : Bool := decide (a.num * b.den < b.num * a.den)

/-- Value equality `a == b` (representations may differ). -/
def Q.beq (a b : Q) : Bool := decide (a.num * b.den = b.num * a.den)

/-- Mathematical floor, matching Python `math.floor` on the exact value. -/
def Q.floorI (a : Q) : ℤ := a.num / a.den

/-- Mathematical ceiling, matching Python `math.ceil` on the exact value. -/
def Q.ceilI (a : Q) : ℤ := -(Q.floorI a.neg)

/-- Python `max(a, b)`: returns the first argument on ties. -/
def Q.max2 (a b : Q) : Q := if a.lt b then b else a

/-- Python `min(a, b)`: returns the first argument on ties. -/
def Q.min2 (a b : Q) : Q := if b.lt a then b else a

/-- The constant one half. -/
def Q.half : Q := ⟨1, 2, by norm_num⟩

/-- Value of a fraction as a Mathlib rational; used only in proofs. -/
def Q.toRat (a : Q) : ℚ := (a.num : ℚ) / (a.den : ℚ)

/-- Python `round` to the nearest integer with ties going to the even
integer (banker's rounding), on the exact value. -/
def pyRound (q : Q) : ℤ :=
  let f := q.floorI
  let r := q.sub (Q.ofInt f)
  if r.lt Q.half then f
  else if Q.half.lt r then f + 1
  else if f % 2 = 0 then f else f + 1

/-- A board point with integer coordinates (nanometres). -/
abbrev Pt := ℤ × ℤ

/-- Consecutive-vertex segments of a closed ring, wrapping from the last
point back around: pairs `(previous, current)` in the iteration order of
the source loops. -/
def ringSegments (pts : List Pt) : List (Pt × Pt) :=
  match pts.getLast? with
  | none => []
  | some z => (z :: pts).zip pts

/-- One step of the ray-crossing loop of `_point_in_polygon`: `seg` is the
pair `(poly[j], poly[i])` with `j` the predecessor index. -/
def pipStep (x y : ℤ) (inside : Bool) (seg : Pt × Pt) : Bool :=
  let xj := seg.1.1
  let yj := seg.1.2
  let xi := seg.2.1
  let yi := seg.2.2
  if (decide (y < yi)) != (decide (y < yj)) then
    let denom : ℤ := if yj - yi = 0 then 1 else yj - yi
    let xcross := ((Q.ofInt ((xj - xi) * (y - yi))).div (Q.ofInt denom)).add (Q.ofInt xi)
    if (Q.ofInt x).lt xcross then !inside else inside
  else inside

/-- Ray-crossing point-in-polygon test, `_point_in_polygon`. -/
def pointInPolygon (x y : ℤ) (poly : List Pt) : Bool :=
  if poly.length < 3 then false
  else (ringSegments poly).foldl (pipStep x y) false

/-- Squared distance from `(x, y)` to segment `(sx, sy)-(ex, ey)`,
`_dist_point_to_segment`.  The perpendicular branch squares to
`|w|^2 - c1^2 / c2` where the source returns `hypot(x - px, y - py)` with
`p = a + (c1/c2) v`; the source's nonnegative return value compares to a
bound `m` exactly as this square compares to `m^2` when `0 < m`. -/
def distSqPtSeg (x y sx sy ex ey : ℤ) : Q :=
  let vx := ex - sx
  let vy := ey - sy
  let wx := x - sx
  let wy := y - sy
  let c1 := vx * wx + vy * wy
  let c2 := vx * vx + vy * vy
  if c1 ≤ 0 then Q.ofInt (wx * wx + wy * wy)
  else if c2 ≤ 0 then Q.ofInt (wx * wx + wy * wy)
  else if c2 ≤ c1 then Q.ofInt ((x - ex) * (x - ex) + (y - ey) * (y - ey))
  else (Q.ofInt (wx * wx + wy * wy)).sub ((Q.ofInt (c1 * c1)).div (Q.ofInt c2))

/-- The comparison `dist_point_to_segment < m`: since the distance is
nonnegative this holds iff `0 < m` and the squared distance is below
`m^2`. -/
def distLtSeg (x y sx sy ex ey : ℤ) (m : Q) : Bool :=
  (Q.ofInt 0).lt m && (distSqPtSeg x y sx sy ex ey).lt (m.mul m)

/-- The comparison `_poly_min_edge_distance(x, y, pts) < margin`.  Rings
with fewer than two points give the source's `1e30` sentinel (modelled as
`10^30`). -/
def polyMinEdgeDistLT (x y : ℤ) (pts : List Pt) (margin : ℤ) : Bool :=
  if pts.length < 2 then decide ((10 : ℤ) ^ 30 < margin)
  else (ringSegments pts).any fun s => distLtSeg x y s.1.1 s.1.2 s.2.1 s.2.2 (Q.ofInt margin)

/-- One filled region of a zone: an outline ring plus hole rings. -/
structure Region where
  outline : List Pt
  holes : List (List Pt)

/-- Body of the region loop of `_point_inside_zone_with_margin`; `false`
corresponds to `continue`, `true` to `return True`. -/
def regionContains (x y margin : ℤ) (r : Region) : Bool :=
  if r.outline.isEmpty then false
  else if !(pointInPolygon x y r.outline) then false
  else if r.holes.any (fun h => !h.isEmpty && pointInPolygon x y h) then false
  else if margin ≤ 0 then true
  else if polyMinEdgeDistLT x y r.outline margin then false
  else if r.holes.any (fun h => !h.isEmpty && polyMinEdgeDistLT x y h margin) then false
  else true

/-- Zone containment with boundary margin, `_point_inside_zone_with_margin`. -/
def pointInsideZoneWithMargin (x y : ℤ) (polys : List Region) (margin : ℤ) : Bool :=
  polys.any (regionContains x y margin)

/-- Ordering on fraction values, as a proposition for sorting. -/
def qleP (a b : Q) : Prop := a.le b = true

instance : DecidableRel qleP := fun a b => Bool.decEq _ _

/-- Sorted x coordinates of scanline crossings, `_edge_intersections_x`.
The sort is by value; Python's stable `sort` on floats agrees because
value-equal floats are indistinguishable. -/
def edgeIntersectionsX (pts : List Pt) (y : ℤ) : List Q :=
  if pts.length < 3 then []
  else
    let xs := (pts.zip (pts.rotate 1)).filterMap fun pq =>
      let x1 := pq.1.1
      let y1 := pq.1.2
      let x2 := pq.2.1
      let y2 := pq.2.2
      if y1 = y2 then none
      else if (y1 ≤ y ∧ y < y2) ∨ (y2 ≤ y ∧ y < y1) then
        some ((Q.ofInt x1).add (((Q.ofInt (y - y1)).div (Q.ofInt (y2 - y1))).mul (Q.ofInt (x2 - x1))))
      else none
    List.insertionSort qleP xs

/-- Pair up sorted crossings `(0,1), (2,3), ...` into inside intervals,
keeping an interval only when `a < b`; an odd leftover is dropped. -/
def pairUpIntervals : List Q → List (Q × Q)
  | a :: b :: rest => (if a.lt b then [(a, b)] else []) ++ pairUpIntervals rest
  | _ => []

/-- Inside intervals of one ring on scanline `y`, `_intervals_from_ring`. -/
def intervalsFromRing (pts : List Pt) (y : ℤ) : List (Q × Q) :=
  pairUpIntervals (edgeIntersectionsX pts y)

/-- Python tuple comparison `(a.1, a.2) <= (b.1, b.2)` on interval
endpoints, used as the sort key of `_merge_intervals`. -/
def intervalLeB (p q : Q × Q) : Bool :=
  p.1.lt q.1 || (p.1.beq q.1 && p.2.le q.2)

/-- Propositional form of `intervalLeB` for `List.insertionSort`. -/
def intervalLeP (p q : Q × Q) : Prop := intervalLeB p q = true

instance : DecidableRel intervalLeP := fun p q => Bool.decEq _ _

instance : IsTotal (Q × Q) intervalLeP := by
  constructor
  intro p q
  simp only [intervalLeP, intervalLeB, Q.lt, Q.beq, Q.le, Bool.or_eq_true,
    Bool.and_eq_true, decide_eq_true_eq]
  omega

instance : IsTrans (Q × Q) intervalLeP := by
  constructor
  intro p q r
  simp only [intervalLeP, intervalLeB, Q.lt, Q.beq, Q.le, Bool.or_eq_true,
    Bool.and_eq_true, decide_eq_true_eq]
  have hpd := p.1.den_pos
  have hqd := q.1.den_pos
  have hrd := r.1.den_pos
  have hpd2 := p.2.den_pos
  have hqd2 := q.2.den_pos
  have hrd2 := r.2.den_pos
  rintro (h1 | ⟨h1, h1s⟩) (h2 | ⟨h2, h2s⟩)
  · left
    have ha : p.1.num * q.1.den * r.1.den < q.1.num * p.1.den * r.1.den :=
      mul_lt_mul_of_pos_right h1 hrd
    have hb : q.1.num * r.1.den * p.1.den < r.1.num * q.1.den * p.1.den :=
      mul_lt_mul_of_pos_right h2 hpd
    have hc : p.1.num * r.1.den * q.1.den < r.1.num * p.1.den * q.1.den := by nlinarith
    exact lt_of_mul_lt_mul_right hc (le_of_lt hqd)
  · left
    have ha : p.1.num * q.1.den * r.1.den < q.1.num * p.1.den * r.1.den :=
      mul_lt_mul_of_pos_right h1 hrd
    have hc : p.1.num * r.1.den * q.1.den < r.1.num * p.1.den * q.1.den := by nlinarith
    exact lt_of_mul_lt_mul_right hc (le_of_lt hqd)
  · left
    have hb : q.1.num * r.1.den * p.1.den < r.1.num * q.1.den * p.1.den :=
      mul_lt_mul_of_pos_right h2 hpd
    have hc : p.1.num * r.1.den * q.1.den < r.1.num * p.1.den * q.1.den := by nlinarith
    exact lt_of_mul_lt_mul_right hc (le_of_lt hqd)
  · right
    constructor
    · have hc : p.1.num * r.1.den * q.1.den = r.1.num * p.1.den * q.1.den := by nlinarith
      exact mul_right_cancel₀ (ne_of_gt hqd) hc
    · have ha : p.2.num * q.2.den * r.2.den ≤ q.2.num * p.2.den * r.2.den :=
        mul_le_mul_of_nonneg_right h1s (le_of_lt hrd2)
      have hc : p.2.num * r.2.den * q.2.den ≤ r.2.num * p.2.den * q.2.den := by nlinarith
      exact le_of_mul_le_mul_right hc hqd2

/-- Sort of `_merge_intervals`: `sorted(intervals, key=(a, b))`. -/
def sortIntervals (l : List (Q × Q)) : List (Q × Q) :=
  List.insertionSort intervalLeP l

/-- Merging loop of `_merge_intervals`: `cur` is the last merged interval
`merged[-1]` and the list argument holds the remaining sorted items. -/
def mergeAux : Q × Q → List (Q × Q) → List (Q × Q)
  | cur, [] => [cur]
  | cur, (a, b) :: rest =>
    if a.le cur.2 then mergeAux (cur.1, cur.2.max2 b) rest
    else cur :: mergeAux (a, b) rest

/-- Sorted-interval union, `_merge_intervals`. -/
def mergeIntervals (l : List (Q × Q)) : List (Q × Q) :=
  match sortIntervals l with
  | [] => []
  | x :: rest => mergeAux x rest

/-- Inner cut loop of `_subtract_intervals` for one base interval with
right end `b`, starting from position `cur`; returns the surviving
pieces.  The two `break` statements of the source correspond to the
branches that stop recursing. -/
def subtractGo (b : Q) : Q → List (Q × Q) → List (Q × Q)
  | cur, [] => if cur.lt b then [(cur, b)] else []
  | cur, (ca, cb) :: rest =>
    if cb.le cur then subtractGo b cur rest
    else if b.le ca then (if cur.lt b then [(cur, b)] else [])
    else
      (if cur.lt ca then [(cur, ca.min2 b)] else []) ++
        (if b.le (cur.max2 cb) then [] else subtractGo b (cur.max2 cb) rest)

/-- Sorted-interval difference, `_subtract_intervals`. -/
def subtractIntervals (base cuts : List (Q × Q)) : List (Q × Q) :=
  if base.isEmpty then []
  else if cuts.isEmpty then base
  else
    let cutsMerged := mergeIntervals cuts
    base.flatMap fun p => subtractGo p.2 p.1 cutsMerged

/-- Covered x intervals of a zone at scanline `y`, `_row_intervals`:
outline crossings minus hole crossings, merged over all regions. -/
def rowIntervals (polys : List Region) (y : ℤ) : List (Q × Q) :=
  mergeIntervals <| polys.flatMap fun r =>
    if r.outline.length < 3 then []
    else
      let filled := intervalsFromRing r.outline y
      if filled.isEmpty then []
      else
        let holeIntervals := r.holes.flatMap fun h =>
          if h.length < 3 then [] else intervalsFromRing h y
        if holeIntervals.isEmpty then filled
        else subtractIntervals filled holeIntervals

/-- Phase-aligned grid x positions inside `[a, b]`,
`_grid_points_in_interval`.  The source iterates `x = start + k*step`
while `x <= floor(b)`; for validated runs `0 < stepX` and the loop is the
arithmetic progression below. -/
def gridPointsInInterval (a b : Q) (startX stepX : ℤ) : List ℤ :=
  let left := a.ceilI
  let right := b.floorI
  if right < left then []
  else if stepX ≤ 0 then []
  else
    let k := ((Q.ofInt (left - startX)).div (Q.ofInt stepX)).ceilI
    let x0 := startX + k * stepX
    if right < x0 then []
    else (List.range (((right - x0) / stepX).toNat + 1)).map fun i => x0 + Int.ofNat i * stepX

/-- Evenly spread `n` points centred in `[a, b]`,
`_centered_points_in_interval`. -/
def centeredPointsInInterval (a b : Q) (stepX n : ℤ) : List ℤ :=
  if n ≤ 0 then []
  else
    let span := b.sub a
    let used := Q.ofInt ((n - 1) * stepX)
    let x0 := a.add (Q.half.mul (span.sub used))
    (List.range n.toNat).map fun i => pyRound (x0.add (Q.ofInt (Int.ofNat i * stepX)))

/-- Sorted duplicate-free list of integers, Python `sorted(set(l))`. -/
def sortedDedupInt (l : List ℤ) : List ℤ :=
  List.insertionSort (· ≤ ·) l.dedup

/-- Candidate x positions of one row, `_row_segment_points`. -/
def rowSegmentPoints (intervals : List (Q × Q)) (stepX startX : ℤ)
    (centerSegments maximizeVias : Bool) : List ℤ :=
  let rowPoints := intervals.flatMap fun ab =>
    let a := ab.1
    let b := ab.2
    if b.lt a then []
    else
      let gridPts := gridPointsInInterval a b startX stepX
      if !centerSegments then gridPts
      else
        let n : ℤ :=
          if maximizeVias then ((b.sub a).div (Q.ofInt stepX)).floorI + 1
          else (gridPts.length : ℤ)
        if n ≤ 0 then [] else centeredPointsInInterval a b stepX n
  sortedDedupInt rowPoints

/-- Per-run rejection statistics, the `stats` dict of
`_build_candidates_for_phase`. -/
structure Stats where
  candidatesTested : ℕ
  inside : ℕ
  rejectedOverlap : ℕ
  rejectedEdge : ℕ
deriving DecidableEq

/-- Validated dimensions in nanometres, the dict returned by
`_validate_settings`. -/
structure Dims where
  viaSize : ℤ
  viaDrill : ℤ
  stepX : ℤ
  stepY : ℤ
  offX : ℤ
  offY : ℤ
  edgeMargin : ℤ
  padMargin : ℤ
deriving DecidableEq

/-- The `_validate_settings` checks on the already-converted nanometre
values; `true` means no `RuntimeError` is raised. -/
def validateSettings (d : Dims) : Bool :=
  if d.viaSize ≤ 0 ∨ d.viaDrill ≤ 0 then false
  else if d.viaSize ≤ d.viaDrill then false
  else if d.stepX ≤ 0 ∨ d.stepY ≤ 0 then false
  else if d.edgeMargin < 0 ∨ d.padMargin < 0 then false
  else true

/-- A via on the board, with the host-assigned identifier. -/
structure ViaItem where
  id : String
  x : ℤ
  y : ℤ
  diameter : ℤ
  drill : ℤ
  net : String
  layers : List ℤ
deriving DecidableEq

/-- A pad on the board; `bboxX`/`bboxY` are the bounding-box size used by
`_gather_pad_obstacles`. -/
structure PadItem where
  x : ℤ
  y : ℤ
  bboxX : ℤ
  bboxY : ℤ
  layers : List ℤ
deriving DecidableEq

/-- A track segment on the board. -/
structure TrackItem where
  sx : ℤ
  sy : ℤ
  ex : ℤ
  ey : ℤ
  width : ℤ
  layers : List ℤ
deriving DecidableEq

/-- The board snapshot visible to the engine. -/
structure BoardState where
  vias : List ViaItem
  pads : List PadItem
  tracks : List TrackItem
deriving DecidableEq

/-- A zone: identity, net, layers, bounding box (position plus size, as
returned by `zone.bounding_box()`), and filled regions. -/
structure ZoneData where
  id : String
  name : String
  net : String
  layers : List ℤ
  posX : ℤ
  posY : ℤ
  sizeX : ℤ
  sizeY : ℤ
  polygons : List Region

/-- Bounding box `(x0, y0, x1, y1)` of a zone, `_zone_bbox`. -/
def zoneBBox (z : ZoneData) : ℤ × ℤ × ℤ × ℤ :=
  (z.posX, z.posY, z.posX + z.sizeX, z.posY + z.sizeY)

/-- Circle obstacle `(x, y, radius)`. -/
abbrev CircleObs := ℤ × ℤ × ℤ

/-- Track obstacle `(sx, sy, ex, ey, width)`. -/
abbrev TrackObs := ℤ × ℤ × ℤ × ℤ × ℤ

/-- The `isdisjoint` layer test used by the gather functions. -/
def layersDisjoint (a b : List ℤ) : Bool := a.all fun x => !(b.contains x)

/-- Via obstacles, `_gather_via_obstacles`: skip ignored identifiers and,
when layer filtering is on, vias whose (nonempty) layer set is disjoint
from the target layers. -/
def gatherViaObstacles (board : BoardState) (ignoreIds : List String)
    (targetLayers : List ℤ) (includeOtherLayers : Bool) : List CircleObs :=
  board.vias.filterMap fun v =>
    if ignoreIds.contains v.id then none
    else if !includeOtherLayers && !v.layers.isEmpty && layersDisjoint v.layers targetLayers then none
    else some (v.x, v.y, v.diameter / 2)

/-- Pad obstacles, `_gather_pad_obstacles`: half of the larger bounding
box extent, clamped to at least 1. -/
def gatherPadObstacles (board : BoardState) (targetLayers : List ℤ)
    (includeOtherLayers : Bool) : List CircleObs :=
  board.pads.filterMap fun p =>
    if !includeOtherLayers && !p.layers.isEmpty && layersDisjoint p.layers targetLayers then none
    else
      let rad := (max p.bboxX p.bboxY) / 2
      some (p.x, p.y, if rad ≤ 0 then 1 else rad)

/-- Track obstacles, `_gather_track_obstacles`. -/
def gatherTrackObstacles (board : BoardState) (targetLayers : List ℤ)
    (includeOtherLayers : Bool) : List TrackObs :=
  board.tracks.filterMap fun t =>
    if !includeOtherLayers && !t.layers.isEmpty && layersDisjoint t.layers targetLayers then none
    else some (t.sx, t.sy, t.ex, t.ey, t.width)

/-- The test `hypot(x - ox, y - oy) < ownLimit + orad` of
`_conflicts_with_obstacles`; as the distance is nonnegative this is
`0 < m` and squared distance below `m^2`. -/
def circleConflict (x y ox oy orad ownLimit : ℤ) : Bool :=
  let m := ownLimit + orad
  decide (0 < m ∧ (x - ox) * (x - ox) + (y - oy) * (y - oy) < m * m)

/-- Overlap test against all obstacles, `_conflicts_with_obstacles`. -/
def conflictsWithObstacles (x y viaRadius padMargin : ℤ)
    (viaObs padObs : List CircleObs) (trackObs : List TrackObs) : Bool :=
  let ownLimit := viaRadius + padMargin
  viaObs.any (fun o => circleConflict x y o.1 o.2.1 o.2.2 ownLimit) ||
  padObs.any (fun o => circleConflict x y o.1 o.2.1 o.2.2 ownLimit) ||
  trackObs.any (fun t =>
    distLtSeg x y t.1 t.2.1 t.2.2.1 t.2.2.2.1 (Q.ofInt (ownLimit + t.2.2.2.2 / 2)))

/-- State threaded through one phase run: accepted positions, the growing
via-obstacle list, and the statistics. -/
abbrev PhaseState := List Pt × List CircleObs × Stats

/-- Body of the candidate loop of `_build_candidates_for_phase` for one
candidate `x` on row `y`: containment first, then overlap, then accept
with self-reservation. -/
def processCandidate (polys : List Region) (dims : Dims) (padObs : List CircleObs)
    (trackObs : List TrackObs) (y : ℤ) (st : PhaseState) (x : ℤ) : PhaseState :=
  let vias := st.1
  let viaObs := st.2.1
  let s := st.2.2
  let viaRadius := dims.viaSize / 2
  let s := { s with candidatesTested := s.candidatesTested + 1 }
  let boundaryMargin := viaRadius + dims.edgeMargin
  if !pointInsideZoneWithMargin x y polys boundaryMargin then
    (vias, viaObs, { s with rejectedEdge := s.rejectedEdge + 1 })
  else
    let s := { s with inside := s.inside + 1 }
    if conflictsWithObstacles x y viaRadius dims.padMargin viaObs padObs trackObs then
      (vias, viaObs, { s with rejectedOverlap := s.rejectedOverlap + 1 })
    else
      (vias ++ [(x, y)], viaObs ++ [(x, y, viaRadius)], s)

/-- Row y coordinates scanned by the `while y <= y1` loop; empty when the
step is not positive (the source would not terminate there, and validated
runs always have a positive step). -/
def rowYs (startY y1 stepY : ℤ) : List ℤ :=
  if stepY ≤ 0 then []
  else if y1 < startY then []
  else (List.range (((y1 - startY) / stepY).toNat + 1)).map fun i => startY + Int.ofNat i * stepY

/-- One grid pass at a fixed phase, `_build_candidates_for_phase`. -/
def buildCandidatesForPhase (zone : ZoneData) (polys : List Region) (dims : Dims)
    (viaObsSeed padObs : List CircleObs) (trackObs : List TrackObs)
    (phaseX phaseY : ℤ) (centerSegments maximizeVias : Bool) : List Pt × Stats :=
  let bbox := zoneBBox zone
  let startX := bbox.1 + (phaseX - bbox.1) % dims.stepX
  let startY := bbox.2.1 + (phaseY - bbox.2.1) % dims.stepY
  let init : PhaseState := ([], viaObsSeed, ⟨0, 0, 0, 0⟩)
  let final := (rowYs startY bbox.2.2.2 dims.stepY).foldl
    (fun st y =>
      let intervals := rowIntervals polys y
      let rowPts := rowSegmentPoints intervals dims.stepX startX centerSegments maximizeVias
      rowPts.foldl (processCandidate polys dims padObs trackObs y) st)
    init
  (final.1, final.2.2)

/-- Phase offsets explored by the search, `_phase_offsets`. -/
def phaseOffsets (step baseOffset samples : ℤ) : List ℤ :=
  if step ≤ 0 then [0]
  else
    let extra :=
      if 1 < samples then (List.range samples.toNat).map fun i => ((i : ℤ) * step) / samples
      else []
    sortedDedupInt (baseOffset % step :: extra)

/-- Score of one phase run: most vias, then fewest total rejections, then
fewest edge rejections, then larger phase (via `-phase_y`). -/
abbrev Score := ℤ × ℤ × ℤ × ℤ

/-- Score tuple of `_build_candidates`. -/
def scoreOf (vias : List Pt) (s : Stats) (phaseY : ℤ) : Score :=
  ((vias.length : ℤ), -((s.rejectedOverlap : ℤ) + (s.rejectedEdge : ℤ)), -(s.rejectedEdge : ℤ), -phaseY)

/-- Python lexicographic tuple comparison `a < b` on scores. -/
def scoreLt (a b : Score) : Bool :=
  decide (a.1 < b.1 ∨ (a.1 = b.1 ∧ (a.2.1 < b.2.1 ∨ (a.2.1 = b.2.1 ∧
    (a.2.2.1 < b.2.2.1 ∨ (a.2.2.1 = b.2.2.1 ∧ a.2.2.2 < b.2.2.2))))))

/-- Search state of the phase loop in `_build_candidates`. -/
abbrev BCState := List Pt × Stats × Option Score

/-- One step of the phase search loop: run the phase, keep it if its
score beats the best so far. -/
def bcStep (zone : ZoneData) (polys : List Region) (dims : Dims)
    (viaObsSeed padObs : List CircleObs) (trackObs : List TrackObs)
    (centerSegments maximizeVias : Bool) (best : BCState) (phase : ℤ × ℤ) : BCState :=
  let run := buildCandidatesForPhase zone polys dims viaObsSeed padObs trackObs
    phase.1 phase.2 centerSegments maximizeVias
  let sc := scoreOf run.1 run.2 phase.2
  match best.2.2 with
  | none => (run.1, run.2, some sc)
  | some b => if scoreLt b sc then (run.1, run.2, some sc) else best

/-- The phase pairs visited by `_build_candidates`, outer loop over y
offsets, inner over x offsets. -/
def bcPhases (dims : Dims) (centerSegments maximizeVias : Bool) : List (ℤ × ℤ) :=
  let xSamples : ℤ := if maximizeVias && !centerSegments then 6 else 1
  let ySamples : ℤ := if maximizeVias then 8 else 1
  let xOffsets := phaseOffsets dims.stepX dims.offX xSamples
  let yOffsets := phaseOffsets dims.stepY dims.offY ySamples
  yOffsets.flatMap fun py => xOffsets.map fun px => (px, py)

/-- Phase search over grid offsets, `_build_candidates`: gathers the
obstacle snapshot once, scores every phase and returns the best run. -/
def buildCandidates (board : BoardState) (zone : ZoneData) (polys : List Region)
    (dims : Dims) (ignoreOwnedIds : List String)
    (includeOtherLayers centerSegments maximizeVias : Bool) : List Pt × Stats :=
  let viaObsSeed := gatherViaObstacles board ignoreOwnedIds zone.layers includeOtherLayers
  let padObs := gatherPadObstacles board zone.layers includeOtherLayers
  let trackObs := gatherTrackObstacles board zone.layers includeOtherLayers
  let final := (bcPhases dims centerSegments maximizeVias).foldl
    (bcStep zone polys dims viaObsSeed padObs trackObs centerSegments maximizeVias)
    ([], ⟨0, 0, 0, 0⟩, none)
  (final.1, final.2.1)

/-- The test of `_via_inside_zone`: containment at margin 0. -/
def viaInsideZone (v : ViaItem) (polys : List Region) : Bool :=
  pointInsideZoneWithMargin v.x v.y polys 0

/-- Vias on the zone's net inside the zone, `_vias_on_zone_net_inside`:
skips excluded (nonempty) identifiers; empty zone net yields nothing. -/
def viasOnZoneNetInside (board : BoardState) (zone : ZoneData) (polys : List Region)
    (excludeIds : List String) : List ViaItem :=
  if zone.net = "" then []
  else board.vias.filter fun v =>
    !(v.id ≠ "" && excludeIds.contains v.id) && v.net = zone.net && viaInsideZone v polys

/-- Result summary of a successful `_update_zone_array` run: the new
board, the freshly created vias, the new owned identifier list recorded in
the zone's metadata entry, and the counters the source returns. -/
structure UpdateOutcome where
  board : BoardState
  created : List ViaItem
  ownedViaIds : List String
  removedOld : ℕ
  removedUser : ℕ
  placed : ℕ
  stats : Stats
deriving DecidableEq

deriving instance DecidableEq for Except

/-- The identifiers ignored when gathering via obstacles in
`_update_zone_array`: the owned set, plus user vias when the user chose
to replace them. -/
def updateIgnoreIds (ownedIdsClean : List String) (userVias : List ViaItem)
    (replaceUserVias : Bool) : List String :=
  ownedIdsClean ++
    (if replaceUserVias then (userVias.map (fun v => v.id)).filter (fun s => s ≠ "") else [])

/-- Core of `_update_zone_array` after the settings prompt (host prompts
and the commit plumbing are external): looks up owned vias, asks how to
treat user vias (`replaceUserVias` is the prompt answer), runs the phase
search, fails with the run statistics when nothing was accepted, and
otherwise removes the old vias, creates the new ones (identifiers are
assigned from `freshIds` by the host `create_items`) and records the
created identifiers as the new owned set. -/
def updateZoneArray (board : BoardState) (zone : ZoneData) (polys : List Region)
    (dims : Dims) (includeOtherLayers centerSegments maximizeVias : Bool)
    (ownedIds : List String) (replaceUserVias : Bool) (freshIds : List String) :
    Except Stats UpdateOutcome :=
  let ownedIdsClean := ownedIds.filter fun s => s ≠ ""
  let ownedVias := ownedIdsClean.filterMap fun vid => board.vias.find? fun v => v.id = vid
  let userVias := viasOnZoneNetInside board zone polys ownedIdsClean
  let ignoreIds := updateIgnoreIds ownedIdsClean userVias replaceUserVias
  let run := buildCandidates board zone polys dims ignoreIds
    includeOtherLayers centerSegments maximizeVias
  if run.1.isEmpty then Except.error run.2
  else
    let toRemove := ownedVias ++ (if replaceUserVias then userVias else [])
    let removeIds := (toRemove.map fun v => v.id).filter fun s => s ≠ ""
    let createdVias := (run.1.zip (freshIds.take run.1.length)).map fun pi =>
      { id := pi.2, x := pi.1.1, y := pi.1.2, diameter := dims.viaSize,
        drill := dims.viaDrill, net := zone.net, layers := [] : ViaItem }
    let keptVias := board.vias.filter fun v => !(removeIds.contains v.id)
    let createdIds := (createdVias.map fun v => v.id).filter fun s => s ≠ ""
    Except.ok
      { board := { board with vias := keptVias ++ createdVias }
        created := createdVias
        ownedViaIds := createdIds
        removedOld := ownedVias.length
        removedUser := if replaceUserVias then userVias.length else 0
        placed := createdVias.length
        stats := run.2 }

/-- Inputs of the dialog's `ParseAndValidateInputs` after numeric
parsing, in board units. -/
structure DialogInputs where
  drillsize : ℤ
  viasize : ℤ
  stepX : ℤ
  stepY : ℤ
  offsetX : ℤ
  offsetY : ℤ
  edgeMargin : ℤ
  padMargin : ℤ
  targetMode : Bool
  targetCount : ℤ
  maximizeVias : Bool
deriving DecidableEq

/-- The validation chain of `ParseAndValidateInputs`; `true` means the
inputs dictionary is returned, `false` that an error popup is shown and
`None` returned. -/
def parseAndValidateInputs (i : DialogInputs) : Bool :=
  if i.maximizeVias && i.targetMode then false
  else if !i.maximizeVias && (i.stepX ≤ 0 ∨ i.stepY ≤ 0) then false
  else if i.targetMode && i.targetCount ≤ 0 then false
  else if i.viasize ≤ 0 ∨ i.drillsize ≤ 0 then false
  else if i.drillsize ≥ i.viasize then false
  else if i.edgeMargin < 0 then false
  else if i.padMargin < 0 then false
  else true

/-- Geometry context of one dialog `FillupArea` run in target mode.  The
zone-containment test (`IsPointInsideZoneWithMargin`, which samples the
host's `HitTestFilledArea`) and the static overlap test (`CheckOverlap`,
built on host hit testing) are host collaborators and enter as opaque
predicates on the rounded board point. -/
structure TargetCtx where
  left : ℤ
  right : ℤ
  top : ℤ
  bottom : ℤ
  stepX : ℤ
  stepY : ℤ
  offsetX : ℤ
  offsetY : ℤ
  inside : ℤ → ℤ → Bool
  overlap : ℤ → ℤ → Bool

/-- The dialog's `NormalizeTargetPattern` restricted to the canonical
pattern names (the source additionally lowercases informal aliases);
anything unknown falls back to the default pattern. -/
def normalizeTargetPattern (pattern : String) : String :=
  if pattern = "Grid" then "Grid"
  else if pattern = "45-degree offset" then "45-degree offset"
  else if pattern = "Spiral" then "Spiral"
  else "Grid"

/-- One square ring of relative spiral offsets, the `ring_values` list of
`_iter_pattern_points`. -/
def spiralRing (radius : ℕ) : List (ℤ × ℤ) :=
  if radius = 0 then [(0, 0)]
  else
    let r : ℤ := (radius : ℤ)
    ((List.range (2 * radius + 1)).map fun k => (-r + Int.ofNat k, -r)) ++
    ((List.range (2 * radius)).map fun k => (r, -r + 1 + Int.ofNat k)) ++
    ((List.range (2 * radius)).map fun k => (r - 1 - Int.ofNat k, r)) ++
    ((List.range (2 * radius - 1)).map fun k => (-r, r - 1 - Int.ofNat k))

/-- Candidate stream of the deterministic target patterns,
`_iter_pattern_points`; staggered rows shift odd rows by half a step,
which is why the stream carries exact fractions. -/
def iterPatternPoints (ctx : TargetCtx) (pattern : String)
    (phaseX phaseY stepPx stepPy : ℤ) : List (Q × Q) :=
  let sx := max 1 stepPx
  let sy := max 1 stepPy
  let baseX := ctx.left + (phaseX - ctx.left) % sx
  let baseY := ctx.top + (phaseY - ctx.top) % sy
  if pattern = "Spiral" then
    let centerX := (Q.ofInt (ctx.left + ctx.right)).mul Q.half
    let centerY := (Q.ofInt (ctx.top + ctx.bottom)).mul Q.half
    let kx0 := pyRound ((centerX.sub (Q.ofInt baseX)).div (Q.ofInt sx))
    let ky0 := pyRound ((centerY.sub (Q.ofInt baseY)).div (Q.ofInt sy))
    let gridCx := baseX + kx0 * sx
    let gridCy := baseY + ky0 * sy
    let kxMin := ((Q.ofInt (ctx.left - gridCx)).div (Q.ofInt sx)).ceilI
    let kxMax := ((Q.ofInt (ctx.right - gridCx)).div (Q.ofInt sx)).floorI
    let kyMin := ((Q.ofInt (ctx.top - gridCy)).div (Q.ofInt sy)).ceilI
    let kyMax := ((Q.ofInt (ctx.bottom - gridCy)).div (Q.ofInt sy)).floorI
    if kxMax < kxMin ∨ kyMax < kyMin then []
    else
      let maxRadius := max (max kxMin.natAbs kxMax.natAbs) (max kyMin.natAbs kyMax.natAbs)
      (List.range (maxRadius + 1)).flatMap fun radius =>
        (spiralRing radius).filterMap fun dxy =>
          if dxy.1 < kxMin ∨ kxMax < dxy.1 ∨ dxy.2 < kyMin ∨ kyMax < dxy.2 then none
          else
            let xv := gridCx + dxy.1 * sx
            let yv := gridCy + dxy.2 * sy
            if xv < ctx.left ∨ ctx.right < xv ∨ yv < ctx.top ∨ ctx.bottom < yv then none
            else some (Q.ofInt xv, Q.ofInt yv)
  else
    let staggered := pattern = "45-degree offset"
    let numRows := if ctx.bottom < baseY then 0 else ((ctx.bottom - baseY) / sy).toNat + 1
    (List.range numRows).flatMap fun i =>
      let yv := baseY + Int.ofNat i * sy
      let xStart : Q :=
        if staggered && i % 2 = 1 then (Q.ofInt baseX).add ((Q.ofInt sx).div (Q.ofInt 2))
        else Q.ofInt baseX
      let cnt :=
        if xStart.le (Q.ofInt ctx.right) then
          (((Q.ofInt ctx.right).sub xStart).div (Q.ofInt sx)).floorI.toNat + 1
        else 0
      (List.range cnt).map fun k => (xStart.add (Q.ofInt (Int.ofNat k * sx)), Q.ofInt yv)

/-- The spatial-hash lookup `_conflicts_with_accepted`: only accepted
points in the 3x3 cell neighbourhood are compared, each by squared
distance against the squared spacing. -/
def hashConflict (cellSize spacingSqBound : ℤ) (accepted : List Pt) (px py : ℤ) : Bool :=
  accepted.any fun o =>
    decide ((o.1 / cellSize - px / cellSize).natAbs ≤ 1 ∧
      (o.2 / cellSize - py / cellSize).natAbs ≤ 1 ∧
      (px - o.1) * (px - o.1) + (py - o.2) * (py - o.2) < spacingSqBound)

/-- Result of `_evaluate_target_pattern`. -/
structure TargetEval where
  candidates : ℕ
  insideZone : ℕ
  rejectedOverlap : ℕ
  rejectedEdgeMargin : ℕ
  acceptedPoints : List Pt
deriving DecidableEq

/-- Dry evaluation of one deterministic pattern at one phase,
`_evaluate_target_pattern`: containment, then spacing against already
accepted points via the spatial hash, then the host overlap check. -/
def evaluateTargetPattern (ctx : TargetCtx) (pattern : String)
    (phaseX phaseY minSpacing : ℤ) : TargetEval :=
  let spacing := max 1 minSpacing
  let cellSize := max 1 spacing
  (iterPatternPoints ctx pattern phaseX phaseY ctx.stepX ctx.stepY).foldl
    (fun ev xy =>
      let px := pyRound xy.1
      let py := pyRound xy.2
      let ev := { ev with candidates := ev.candidates + 1 }
      if !ctx.inside px py then
        { ev with rejectedEdgeMargin := ev.rejectedEdgeMargin + 1 }
      else
        let ev := { ev with insideZone := ev.insideZone + 1 }
        if hashConflict cellSize (spacing * spacing) ev.acceptedPoints px py then
          { ev with rejectedOverlap := ev.rejectedOverlap + 1 }
        else if ctx.overlap px py then
          { ev with rejectedOverlap := ev.rejectedOverlap + 1 }
        else
          { ev with acceptedPoints := ev.acceptedPoints ++ [(px, py)] })
    ⟨0, 0, 0, 0, []⟩

/-- Seed of `_select_spread_points`: index of the point nearest the zone
centre, ties broken by smaller y then smaller x (Python `min` keeps the
first minimum). -/
def spreadSeed (cx cy : Q) (points : List Pt) : ℕ :=
  let key := fun (p : Pt) =>
    (((Q.ofInt p.1).sub cx).mul ((Q.ofInt p.1).sub cx)).add
      (((Q.ofInt p.2).sub cy).mul ((Q.ofInt p.2).sub cy))
  (List.range points.length).foldl
    (fun best i =>
      let pb := points.getD best (0, 0)
      let pi := points.getD i (0, 0)
      if (key pi).lt (key pb) ||
          ((key pi).beq (key pb) &&
            (decide (pi.2 < pb.2) || (decide (pi.2 = pb.2) && decide (pi.1 < pb.1)))) then i
      else best)
    0

/-- The selection of the next spread point: the unchosen index with the
largest squared distance to the chosen set, ties broken by smaller y then
smaller x, mirroring the inner loop of `_select_spread_points`. -/
def spreadBest (points : List Pt) (chosen : List ℕ) (minDistSq : List ℤ) : Option ℕ :=
  (List.range points.length).foldl
    (fun best i =>
      if chosen.contains i then best
      else
        match best with
        | none => some i
        | some b =>
          let sc := minDistSq.getD i 0
          let bs := minDistSq.getD b 0
          let p := points.getD i (0, 0)
          let pb := points.getD b (0, 0)
          if bs < sc ∨ (sc = bs ∧ (p.2 < pb.2 ∨ (p.2 = pb.2 ∧ p.1 < pb.1))) then some i
          else best)
    none

/-- Squared distance between two integer points. -/
def ptDistSq (p q : Pt) : ℤ :=
  (p.1 - q.1) * (p.1 - q.1) + (p.2 - q.2) * (p.2 - q.2)

/-- The greedy farthest-point loop of `_select_spread_points`; the fuel
counts the remaining picks (`wanted - len(chosen)` in the source). -/
def spreadLoop (points : List Pt) : ℕ → List ℕ → List ℤ → List ℕ
  | 0, chosen, _ => chosen
  | fuel + 1, chosen, minDistSq =>
    match spreadBest points chosen minDistSq with
    | none => chosen
    | some b =>
      let pb := points.getD b (0, 0)
      let chosen2 := chosen ++ [b]
      let minDistSq2 := (List.range points.length).map fun i =>
        if chosen2.contains i then minDistSq.getD i 0
        else min (minDistSq.getD i 0) (ptDistSq (points.getD i (0, 0)) pb)
      spreadLoop points fuel chosen2 minDistSq2

/-- Farthest-point spread subset selection, `_select_spread_points`. -/
def selectSpreadPoints (left right top bottom : ℤ) (points : List Pt)
    (wanted : ℤ) : List Pt :=
  if wanted ≤ 0 ∨ (points.length : ℤ) ≤ wanted then points
  else if points.isEmpty then []
  else
    let cx := (Q.ofInt (left + right)).mul Q.half
    let cy := (Q.ofInt (top + bottom)).mul Q.half
    let seed := spreadSeed cx cy points
    let ps := points.getD seed (0, 0)
    let minDistSq0 := (List.range points.length).map fun i =>
      ptDistSq (points.getD i (0, 0)) ps
    let chosen := spreadLoop points (wanted - 1).toNat [seed] minDistSq0
    chosen.map fun i => points.getD i (0, 0)

/-- Outcome dictionary of the target-mode paths of `FillupArea`. -/
structure TargetOutcome where
  inserted : ℕ
  candidates : ℕ
  insideZone : ℕ
  rejectedOverlap : ℕ
  rejectedEdgeMargin : ℕ
  targetAvailable : ℕ
  targetRequested : ℤ
  success : Bool
  canceled : Bool
  points : List Pt
deriving DecidableEq

/-- Score of one target-pattern trial in `_run_target_pattern_first`. -/
def targetScore (t : TargetEval) : ℤ × ℤ × ℤ :=
  ((t.acceptedPoints.length : ℤ),
    -((t.rejectedOverlap : ℤ) + (t.rejectedEdgeMargin : ℤ)),
    -(t.rejectedEdgeMargin : ℤ))

/-- Python lexicographic comparison on trial scores. -/
def targetScoreLt (a b : ℤ × ℤ × ℤ) : Bool :=
  decide (a.1 < b.1 ∨ (a.1 = b.1 ∧ (a.2.1 < b.2.1 ∨ (a.2.1 = b.2.1 ∧ a.2.2 < b.2.2))))

/-- The phase sweep of `_run_target_pattern_first`: evaluate every phase
pair and keep the best-scoring trial (strict improvement only, so the
first trial wins ties). -/
def targetBestTrial (ctx : TargetCtx) (pattern : String) (minSpacing : ℤ) :
    Option (TargetEval × (ℤ × ℤ × ℤ)) :=
  let xPhases := if pattern = "Spiral" then [ctx.offsetX] else phaseOffsets ctx.stepX ctx.offsetX 8
  let yPhases := if pattern = "Spiral" then [ctx.offsetY] else phaseOffsets ctx.stepY ctx.offsetY 8
  let trials := yPhases.flatMap fun py => xPhases.map fun px => (px, py)
  trials.foldl
    (fun acc t =>
      let tr := evaluateTargetPattern ctx pattern t.1 t.2 minSpacing
      let sc := targetScore tr
      match acc with
      | none => some (tr, sc)
      | some bp => if targetScoreLt bp.2 sc then some (tr, sc) else acc)
    none

/-- Deterministic pattern attempt across phase offsets,
`_run_target_pattern_first`.  `warningOk` is the answer of
`PromptLargePlacementWarning` (a host dialog). -/
def runTargetPatternFirst (ctx : TargetCtx) (patternName : String)
    (targetLimit minSpacing : ℤ) (warningOk : Bool) : TargetOutcome :=
  let pattern := normalizeTargetPattern patternName
  match targetBestTrial ctx pattern minSpacing with
  | none =>
    { inserted := 0, candidates := 0, insideZone := 0, rejectedOverlap := 0,
      rejectedEdgeMargin := 0, targetAvailable := 0, targetRequested := targetLimit,
      success := false, canceled := false, points := [] }
  | some bp =>
    let b := bp.1
    let available : ℕ := b.acceptedPoints.length
    if !(decide (0 < targetLimit) && decide (targetLimit ≤ (available : ℤ))) then
      { inserted := 0, candidates := b.candidates, insideZone := b.insideZone,
        rejectedOverlap := b.rejectedOverlap, rejectedEdgeMargin := b.rejectedEdgeMargin,
        targetAvailable := available, targetRequested := targetLimit,
        success := false, canceled := false, points := b.acceptedPoints }
    else
      let pts := selectSpreadPoints ctx.left ctx.right ctx.top ctx.bottom
        b.acceptedPoints targetLimit
      if pts.length ≠ 0 ∧ !warningOk then
        { inserted := 0, candidates := b.candidates, insideZone := b.insideZone,
          rejectedOverlap := b.rejectedOverlap, rejectedEdgeMargin := b.rejectedEdgeMargin,
          targetAvailable := available, targetRequested := targetLimit,
          success := false, canceled := true, points := [] }
      else
        { inserted := pts.length, candidates := b.candidates, insideZone := b.insideZone,
          rejectedOverlap := b.rejectedOverlap, rejectedEdgeMargin := b.rejectedEdgeMargin,
          targetAvailable := available, targetRequested := targetLimit,
          success := true, canceled := false, points := pts }

/-- The target-mode dispatch of `FillupArea` when the deterministic
attempt does not reach the target and the heuristic maximize-pack
fallback is declined (`use_fallback` false); `warningOk2` answers the
best-effort large-placement warning.  The accepted fallback branch runs
`_run_maximize_pack` and is outside this model. -/
def targetModeDeclined (ctx : TargetCtx) (patternName : String)
    (targetCount spacingMin : ℤ) (warningOk warningOk2 : Bool) : TargetOutcome :=
  let attempt := runTargetPatternFirst ctx patternName targetCount spacingMin warningOk
  if attempt.canceled then attempt
  else if attempt.success then attempt
  else
    let available := attempt.targetAvailable
    let bestPoints := attempt.points
    if bestPoints.length ≠ 0 ∧ !warningOk2 then
      { inserted := 0, candidates := attempt.candidates, insideZone := attempt.insideZone,
        rejectedOverlap := attempt.rejectedOverlap,
        rejectedEdgeMargin := attempt.rejectedEdgeMargin,
        targetAvailable := available, targetRequested := targetCount,
        success := false, canceled := true, points := [] }
    else
      { inserted := bestPoints.length, candidates := attempt.candidates,
        insideZone := attempt.insideZone, rejectedOverlap := attempt.rejectedOverlap,
        rejectedEdgeMargin := attempt.rejectedEdgeMargin,
        targetAvailable := available, targetRequested := targetCount,
        success := false, canceled := false, points := bestPoints }

/-! Concrete instances used by witnesses and counterexamples. -/

/-- The unit-square test outline of the spec's containment scenarios. -/
def sqOutline : List Pt := [(0, 0), (1000, 0), (1000, 1000), (0, 1000)]

/-- The square as a single filled region without holes. -/
def sqRegion : Region := ⟨sqOutline, []⟩

/-- The square with the concentric hole of the spec's hole scenario. -/
def sqRegionHole : Region := ⟨sqOutline, [[(400, 400), (600, 400), (600, 600), (400, 600)]]⟩

/-- A small square filled region used by concrete runs. -/
def sq10 : Region := ⟨[(0, 0), (10, 0), (10, 10), (0, 10)], []⟩

/-- A zone over `sq10`. -/
def zone10 : ZoneData := ⟨"z1", "", "GND", [0], 0, 0, 10, 10, [sq10]⟩

/-- A board with no obstacles. -/
def emptyBoard : BoardState := ⟨[], [], []⟩

/-- Dimensions with an odd via size (3 nm), pitch 2 nm, one scanned row. -/
def cex1Dims : Dims := ⟨3, 1, 2, 20, 1, 5, 0, 0⟩

/-- Dimensions whose edge margin rejects every candidate of `zone10`. -/
def c5Dims : Dims := ⟨2, 1, 5, 5, 0, 0, 100, 0⟩

/-- Dimensions for a small successful update run on `zone10`. -/
def c7Dims : Dims := ⟨2, 1, 5, 5, 2, 2, 0, 0⟩

/-- A board holding one previously placed (owned) via on the zone net. -/
def c7Board : BoardState :=
  ⟨[⟨"old1", 100, 100, 2, 1, "GND", []⟩], [], []⟩

/-- Dialog inputs that are valid by the spec's list of conditions (target
mode, positive count, valid via sizes, nonnegative margins) but carry a
zero horizontal pitch. -/
def c6cex : DialogInputs := ⟨1, 2, 0, 1, 0, 0, 0, 0, true, 5, false⟩

/-- Target-mode context over a 10x10 box: containment is the box itself,
no static obstacles. -/
def c4ctx : TargetCtx :=
  ⟨0, 10, 0, 10, 5, 5, 0, 0,
   (fun x y => decide (0 ≤ x ∧ x ≤ 10 ∧ 0 ≤ y ∧ y ≤ 10)),
   (fun _ _ => false)⟩

/-! ## Theorems -/

/-- Fold preservation of an invariant. -/
theorem foldl_preserve {α σ : Type _} (P : σ → Prop) (f : σ → α → σ)
    (hstep : ∀ s a, P s → P (f s a)) :
    ∀ (l : List α) (s : σ), P s → P (l.foldl f s) := by
  intro l
  induction l with
  | nil => intro s hs; exact hs
  | cons a t ih => intro s hs; exact ih (f s a) (hstep s a hs)

theorem Q.toRat_den_pos (a : Q) : (0 : ℚ) < (a.den : ℚ) := by
  exact_mod_cast a.den_pos

theorem Q.toRat_den_ne (a : Q) : ((a.den : ℚ)) ≠ 0 := ne_of_gt a.toRat_den_pos

theorem Q.toRat_ofInt (z : ℤ) : (Q.ofInt z).toRat = (z : ℚ) := by
  simp [Q.ofInt, Q.toRat]

theorem Q.toRat_add (a b : Q) : (a.add b).toRat = a.toRat + b.toRat := by
  simp only [Q.add, Q.toRat]
  rw [div_add_div _ _ a.toRat_den_ne b.toRat_den_ne]
  push_cast
  ring_nf

theorem Q.toRat_neg (a : Q) : a.neg.toRat = -a.toRat := by
  simp [Q.neg, Q.toRat, neg_div]

theorem Q.toRat_sub (a b : Q) : (a.sub b).toRat = a.toRat - b.toRat := by
  rw [Q.sub, Q.toRat_add, Q.toRat_neg, sub_eq_add_neg]

theorem Q.toRat_mul (a b : Q) : (a.mul b).toRat = a.toRat * b.toRat := by
  simp only [Q.mul, Q.toRat]
  push_cast
  rw [div_mul_div_comm]

theorem Q.toRat_div (a b : Q) : (a.div b).toRat = a.toRat / b.toRat := by
  by_cases h : 0 < b.num
  · have hbn : (b.num : ℚ) ≠ 0 := by exact_mod_cast ne_of_gt h
    simp only [Q.div, dif_pos h, Q.toRat]
    push_cast
    field_simp
  · by_cases h2 : b.num < 0
    · have hbn : (b.num : ℚ) ≠ 0 := by exact_mod_cast ne_of_lt h2
      simp only [Q.div, dif_neg h, dif_pos h2, Q.toRat]
      push_cast
      rw [neg_div_neg_eq]
      field_simp
    · have hz : b.num = 0 := by omega
      simp only [Q.div, dif_neg h, dif_neg h2, Q.toRat, hz]
      simp [Q.ofInt]

theorem Q.le_iff (a b : Q) : a.le b = true ↔ a.toRat ≤ b.toRat := by
  simp only [Q.le, decide_eq_true_eq, Q.toRat]
  rw [div_le_div_iff a.toRat_den_pos b.toRat_den_pos]
  exact_mod_cast Iff.rfl

theorem Q.lt_iff (a b : Q) : a.lt b = true ↔ a.toRat < b.toRat := by
  simp only [Q.lt, decide_eq_true_eq, Q.toRat]
  rw [div_lt_div_iff a.toRat_den_pos b.toRat_den_pos]
  exact_mod_cast Iff.rfl

theorem Q.beq_iff (a b : Q) : a.beq b = true ↔ a.toRat = b.toRat := by
  simp only [Q.beq, decide_eq_true_eq, Q.toRat]
  rw [div_eq_div_iff a.toRat_den_ne b.toRat_den_ne]
  exact_mod_cast Iff.rfl

theorem Q.le_eq_false_iff (a b : Q) : a.le b = false ↔ b.toRat < a.toRat := by
  constructor
  · intro h
    have hne : ¬(a.le b = true) := by simp [h]
    rw [Q.le_iff] at hne
    exact lt_of_not_ge hne
  · intro h
    cases hb : a.le b
    · rfl
    · exact absurd ((Q.le_iff a b).mp hb) (not_le_of_gt h)

theorem Q.lt_eq_false_iff (a b : Q) : a.lt b = false ↔ b.toRat ≤ a.toRat := by
  constructor
  · intro h
    by_contra hc
    have := (Q.lt_iff a b).mpr (lt_of_not_ge hc)
    rw [this] at h; exact Bool.noConfusion h
  · intro h
    cases hb : a.lt b
    · rfl
    · exact absurd ((Q.lt_iff a b).mp hb) (not_lt_of_ge h)

theorem Q.toRat_max2 (a b : Q) : (a.max2 b).toRat = max a.toRat b.toRat := by
  rw [Q.max2]
  cases hb : a.lt b
  · rw [if_neg (by simp [hb])]
    exact (max_eq_left ((Q.lt_eq_false_iff a b).mp hb)).symm
  · rw [if_pos (by simp [hb])]
    exact (max_eq_right (le_of_lt ((Q.lt_iff a b).mp hb))).symm

theorem Q.toRat_min2 (a b : Q) : (a.min2 b).toRat = min a.toRat b.toRat := by
  rw [Q.min2]
  cases hb : b.lt a
  · rw [if_neg (by simp [hb])]
    exact (min_eq_left ((Q.lt_eq_false_iff b a).mp hb)).symm
  · rw [if_pos (by simp [hb])]
    exact (min_eq_right (le_of_lt ((Q.lt_iff b a).mp hb))).symm

theorem Q.toRat_half : Q.half.toRat = 1 / 2 := by
  simp [Q.half, Q.toRat]

theorem Q.floorI_eq (a : Q) : a.floorI = ⌊a.toRat⌋ := by
  have hd : ((a.den.toNat : ℤ)) = a.den := Int.toNat_of_nonneg (le_of_lt a.den_pos)
  rw [Q.floorI, Q.toRat, ← hd]
  push_cast
  rw [Rat.floor_intCast_div_natCast]

theorem Q.ceilI_eq (a : Q) : a.ceilI = ⌈a.toRat⌉ := by
  rw [Q.ceilI, Q.floorI_eq, Q.toRat_neg, ← Int.ceil_neg, neg_neg]

theorem pyRound_congr {a b : Q} (h : a.toRat = b.toRat) : pyRound a = pyRound b := by
  have hf : a.floorI = b.floorI := by rw [Q.floorI_eq, Q.floorI_eq, h]
  have hr : (a.sub (Q.ofInt a.floorI)).toRat = (b.sub (Q.ofInt b.floorI)).toRat := by
    rw [Q.toRat_sub, Q.toRat_sub, h, hf]
  have h1 : (a.sub (Q.ofInt a.floorI)).lt Q.half = (b.sub (Q.ofInt b.floorI)).lt Q.half := by
    cases hc : (b.sub (Q.ofInt b.floorI)).lt Q.half
    · rw [Q.lt_eq_false_iff] at hc ⊢
      rw [hr]; exact hc
    · rw [(Q.lt_iff _ _).mpr (hr ▸ (Q.lt_iff _ _).mp hc)]
  have h2 : Q.half.lt (a.sub (Q.ofInt a.floorI)) = Q.half.lt (b.sub (Q.ofInt b.floorI)) := by
    cases hc : Q.half.lt (b.sub (Q.ofInt b.floorI))
    · rw [Q.lt_eq_false_iff] at hc ⊢
      rw [hr]; exact hc
    · rw [(Q.lt_iff _ _).mpr (hr ▸ (Q.lt_iff _ _).mp hc)]
  rw [pyRound, pyRound, h1, h2, hf]

/-! Claim C2: characterisation of `contains_with_margin`. -/

theorem pointInPolygon_nil_of_isEmpty {l : List Pt} (h : l.isEmpty = true)
    (x y : ℤ) : pointInPolygon x y l = false := by
  rw [List.isEmpty_iff] at h
  subst h
  rfl

theorem any_hole_eq_false_iff (holes : List (List Pt)) (p : List Pt → Bool) :
    (holes.any fun h => !h.isEmpty && p h) = false ↔
      ∀ h ∈ holes, h ≠ [] → p h = false := by
  rw [List.any_eq_false]
  constructor
  · intro hh h hmem hne
    cases hpp : p h
    · rfl
    · exfalso
      apply hh h hmem
      have hie : h.isEmpty = false := by
        cases hie2 : h.isEmpty
        · rfl
        · exact absurd (List.isEmpty_iff.mp hie2) hne
      simp [hie, hpp]
  · intro hall h hmem hc
    rw [Bool.and_eq_true, Bool.not_eq_true'] at hc
    have hne : h ≠ [] := by
      intro he
      rw [he] at hc
      simp at hc
    rw [hall h hmem hne] at hc
    exact absurd hc.2 (by simp)

theorem regionContains_iff (x y margin : ℤ) (r : Region) :
    regionContains x y margin r = true ↔
      (pointInPolygon x y r.outline = true ∧
        (∀ h ∈ r.holes, h ≠ [] → pointInPolygon x y h = false) ∧
        (margin ≤ 0 ∨
          (polyMinEdgeDistLT x y r.outline margin = false ∧
            ∀ h ∈ r.holes, h ≠ [] → polyMinEdgeDistLT x y h margin = false))) := by
  rw [regionContains]
  split_ifs with h1 h2 h3 h4 h5 h6
  · simp [pointInPolygon_nil_of_isEmpty h1 x y]
  · rw [Bool.not_eq_true'] at h2
    simp [h2]
  · rw [List.any_eq_true] at h3
    obtain ⟨h, hmem, hcond⟩ := h3
    rw [Bool.and_eq_true, Bool.not_eq_true'] at hcond
    have hne : h ≠ [] := by
      intro hn
      rw [hn] at hcond
      simp at hcond
    simp only [Bool.false_eq_true, false_iff]
    rintro ⟨-, hall, -⟩
    rw [hall h hmem hne] at hcond
    exact absurd hcond.2 (by simp)
  · have h2t : pointInPolygon x y r.outline = true := by
      cases hb : pointInPolygon x y r.outline
      · exact absurd (by simp [hb]) h2
      · rfl
    have h3f : ∀ h ∈ r.holes, h ≠ [] → pointInPolygon x y h = false :=
      (any_hole_eq_false_iff r.holes _).mp (Bool.eq_false_iff.mpr h3)
    simp only [h2t, h4, true_iff, true_and, true_or, or_true, iff_true]
    exact ⟨h3f, trivial⟩
  · simp only [Bool.false_eq_true, false_iff]
    rintro ⟨-, -, hm | ⟨hd, -⟩⟩
    · exact h4 hm
    · rw [h5] at hd
      exact absurd hd (by simp)
  · rw [List.any_eq_true] at h6
    obtain ⟨h, hmem, hcond⟩ := h6
    rw [Bool.and_eq_true, Bool.not_eq_true'] at hcond
    have hne : h ≠ [] := by
      intro hn
      rw [hn] at hcond
      simp at hcond
    simp only [Bool.false_eq_true, false_iff]
    rintro ⟨-, -, hm | ⟨-, hall⟩⟩
    · exact h4 hm
    · rw [hall h hmem hne] at hcond
      exact absurd hcond.2 (by simp)
  · have h2t : pointInPolygon x y r.outline = true := by
      cases hb : pointInPolygon x y r.outline
      · exact absurd (by simp [hb]) h2
      · rfl
    have h3f : ∀ h ∈ r.holes, h ≠ [] → pointInPolygon x y h = false :=
      (any_hole_eq_false_iff r.holes _).mp (Bool.eq_false_iff.mpr h3)
    have h5f : polyMinEdgeDistLT x y r.outline margin = false := Bool.eq_false_iff.mpr h5
    have h6f : ∀ h ∈ r.holes, h ≠ [] → polyMinEdgeDistLT x y h margin = false :=
      (any_hole_eq_false_iff r.holes _).mp (Bool.eq_false_iff.mpr h6)
    simp only [h2t, true_iff, true_and, iff_true]
    exact ⟨h3f, Or.inr ⟨h5f, h6f⟩⟩

theorem pointInsideZone_iff (x y margin : ℤ) (polys : List Region) :
    pointInsideZoneWithMargin x y polys margin = true ↔
      ∃ r ∈ polys,
        pointInPolygon x y r.outline = true ∧
        (∀ h ∈ r.holes, h ≠ [] → pointInPolygon x y h = false) ∧
        (margin ≤ 0 ∨
          (polyMinEdgeDistLT x y r.outline margin = false ∧
            ∀ h ∈ r.holes, h ≠ [] → polyMinEdgeDistLT x y h margin = false)) := by
  rw [pointInsideZoneWithMargin, List.any_eq_true]
  constructor
  · rintro ⟨r, hr, hc⟩
    exact ⟨r, hr, (regionContains_iff x y margin r).mp hc⟩
  · rintro ⟨r, hr, hc⟩
    exact ⟨r, hr, (regionContains_iff x y margin r).mpr hc⟩

/-- Claim C2: `contains_with_margin(point, regions, margin)` is true iff
some filled region contains the point inside its outline, outside all of
its (nonempty) holes and, for positive margin, at edge distance at least
`margin` from the outline and every hole; on the spec's 1000-square the
centre is contained at margin 0 and not at margin 600, any point outside
the outline is never contained, and with the concentric hole the centre
is not contained even at margin 0. -/
theorem claim_C2 :
    (∀ (x y margin : ℤ) (polys : List Region),
      pointInsideZoneWithMargin x y polys margin = true ↔
        ∃ r ∈ polys,
          pointInPolygon x y r.outline = true ∧
          (∀ h ∈ r.holes, h ≠ [] → pointInPolygon x y h = false) ∧
          (margin ≤ 0 ∨
            (polyMinEdgeDistLT x y r.outline margin = false ∧
              ∀ h ∈ r.holes, h ≠ [] → polyMinEdgeDistLT x y h margin = false))) ∧
    pointInsideZoneWithMargin 500 500 [sqRegion] 0 = true ∧
    pointInsideZoneWithMargin 500 500 [sqRegion] 600 = false ∧
    (∀ (x y margin : ℤ), pointInPolygon x y sqOutline = false →
      pointInsideZoneWithMargin x y [sqRegion] margin = false) ∧
    pointInsideZoneWithMargin 500 500 [sqRegionHole] 0 = false := by
  refine ⟨fun x y margin polys => pointInsideZone_iff x y margin polys,
    by decide, by decide, ?_, by decide⟩
  intro x y margin hout
  cases hc : pointInsideZoneWithMargin x y [sqRegion] margin
  · rfl
  · obtain ⟨r, hr, hpip, -⟩ := (pointInsideZone_iff x y margin [sqRegion]).mp hc
    simp only [List.mem_singleton] at hr
    subst hr
    exact absurd hpip (by rw [show sqRegion.outline = sqOutline from rfl, hout]; simp)

/-- Claim C2 witness: the characterisation applied at the concrete point
(1500, 500), which lies outside the square outline. -/
theorem claim_C2_witness :
    pointInPolygon 1500 500 sqOutline = false ∧
    pointInsideZoneWithMargin 1500 500 [sqRegion] 0 = false :=
  ⟨by decide, claim_C2.2.2.2.1 1500 500 0 (by decide)⟩

/-! Claim C6: parameter validation. -/

/-- Claim C6 counterexample: in target mode with a positive target count,
valid via sizes, nonnegative margins and no conflicting flags, a zero
horizontal pitch violates none of the claim's listed conditions (pitch
positivity is only demanded "outside maximize/target mode"), yet
`ParseAndValidateInputs` rejects the inputs. -/
theorem claim_C6_counterexample :
    parseAndValidateInputs c6cex = false ∧
    ¬(c6cex.viasize ≤ 0 ∨ c6cex.drillsize ≤ 0 ∨ c6cex.drillsize ≥ c6cex.viasize ∨
      ((c6cex.maximizeVias = false ∧ c6cex.targetMode = false) ∧
        (c6cex.stepX ≤ 0 ∨ c6cex.stepY ≤ 0)) ∨
      c6cex.edgeMargin < 0 ∨ c6cex.padMargin < 0 ∨
      (c6cex.maximizeVias = true ∧ c6cex.targetMode = true) ∨
      (c6cex.targetMode = true ∧ c6cex.targetCount ≤ 0)) := by
  decide

/-- Claim C6 (amended): the dialog validation fails exactly when via size
or drill is nonpositive, drill is at least the size, a pitch is
nonpositive while maximize mode is off (so also in target mode), a margin
is negative, both mode flags are set, or target mode has a nonpositive
count; the IPC engine's `_validate_settings` additionally has no mode
exceptions at all and requires positive pitch always. -/
theorem claim_C6_amended :
    (∀ i : DialogInputs,
      parseAndValidateInputs i = false ↔
        (i.viasize ≤ 0 ∨ i.drillsize ≤ 0 ∨ i.drillsize ≥ i.viasize ∨
          (i.maximizeVias = false ∧ (i.stepX ≤ 0 ∨ i.stepY ≤ 0)) ∨
          i.edgeMargin < 0 ∨ i.padMargin < 0 ∨
          (i.maximizeVias = true ∧ i.targetMode = true) ∨
          (i.targetMode = true ∧ i.targetCount ≤ 0))) ∧
    (∀ d : Dims,
      validateSettings d = false ↔
        (d.viaSize ≤ 0 ∨ d.viaDrill ≤ 0 ∨ d.viaDrill ≥ d.viaSize ∨
          d.stepX ≤ 0 ∨ d.stepY ≤ 0 ∨ d.edgeMargin < 0 ∨ d.padMargin < 0)) := by
  constructor
  · intro i
    cases hm : i.maximizeVias <;> cases ht : i.targetMode <;>
      simp [parseAndValidateInputs, hm, ht] <;> omega
  · intro d
    simp only [validateSettings]
    split_ifs <;> simp_all <;> omega

/-! Claim C9: narrow intervals in the row candidate generator. -/

theorem sortedDedupInt_singleton (x : ℤ) : sortedDedupInt [x] = [x] := by
  simp [sortedDedupInt, List.insertionSort, List.orderedInsert]

/-- Claim C9 counterexample: with centering enabled but maximize off, the
interval `(3, 7)` (width 4, narrower than the pitch 10) contains no
phase-aligned grid point, so the number of centred points is zero and the
row generator emits nothing, contradicting "exactly one centered
candidate point when centering is enabled". -/
theorem claim_C9_counterexample :
    rowSegmentPoints [(Q.ofInt 3, Q.ofInt 7)] 10 0 true false = [] := by
  decide

/-- Claim C9 (amended): an interval of width in `[0, pitch)` receives
exactly one centred point, at the rounded midpoint, when centering and
maximize are both enabled; with centering but no maximize, and in grid
mode without centering, such an interval may receive zero points. -/
theorem claim_C9_amended :
    (∀ (a b : Q) (stepX startX : ℤ), 0 < stepX →
      (Q.ofInt 0).le (b.sub a) = true → (b.sub a).lt (Q.ofInt stepX) = true →
      rowSegmentPoints [(a, b)] stepX startX true true = [pyRound ((a.add b).mul Q.half)]) ∧
    rowSegmentPoints [(Q.ofInt 3, Q.ofInt 7)] 10 0 true false = [] ∧
    rowSegmentPoints [(Q.ofInt 3, Q.ofInt 7)] 10 0 false false = [] := by
  refine ⟨?_, by decide, by decide⟩
  intro a b stepX startX hs h0 h1
  have h0' : (0 : ℚ) ≤ b.toRat - a.toRat := by
    have := (Q.le_iff _ _).mp h0
    rwa [Q.toRat_ofInt, Q.toRat_sub] at this
  have h1' : b.toRat - a.toRat < (stepX : ℚ) := by
    have := (Q.lt_iff _ _).mp h1
    rwa [Q.toRat_sub, Q.toRat_ofInt] at this
  have hsx : (0 : ℚ) < (stepX : ℚ) := by exact_mod_cast hs
  have hblt : b.lt a = false := by
    rw [Q.lt_eq_false_iff]
    linarith
  have hfloor : ((b.sub a).div (Q.ofInt stepX)).floorI = 0 := by
    rw [Q.floorI_eq, Q.toRat_div, Q.toRat_sub, Q.toRat_ofInt]
    rw [Int.floor_eq_zero_iff]
    constructor
    · exact div_nonneg h0' (le_of_lt hsx)
    · rw [div_lt_one hsx]
      linarith
  rw [rowSegmentPoints]
  simp only [List.flatMap_cons, List.flatMap_nil, List.append_nil, hblt,
    Bool.false_eq_true, if_false, Bool.not_true, hfloor, if_true]
  have hn : ¬((0 : ℤ) + 1 ≤ 0) := by omega
  rw [if_neg hn]
  have hpt : centeredPointsInInterval a b stepX (0 + 1) = [pyRound ((a.add b).mul Q.half)] := by
    rw [centeredPointsInInterval]
    rw [if_neg hn]
    have h2 : ((0 : ℤ) + 1).toNat = 1 := rfl
    rw [h2]
    have hr1 : List.range 1 = [0] := rfl
    rw [hr1]
    simp only [List.map_cons, List.map_nil]
    congr 1
    apply pyRound_congr
    rw [Q.toRat_add, Q.toRat_ofInt, Q.toRat_add, Q.toRat_mul, Q.toRat_half,
      Q.toRat_mul, Q.toRat_add, Q.toRat_sub, Q.toRat_sub, Q.toRat_ofInt, Q.toRat_half]
    push_cast
    ring
  rw [hpt, sortedDedupInt_singleton]

/-- Claim C9 witness: the amended statement applied to the interval
`(3, 7)` with pitch 10, yielding the single centred point 5. -/
theorem claim_C9_witness :
    (0 : ℤ) < 10 ∧ rowSegmentPoints [(Q.ofInt 3, Q.ofInt 7)] 10 0 true true = [5] := by
  constructor
  · decide
  · have h := claim_C9_amended.1 (Q.ofInt 3) (Q.ofInt 7) 10 0 (by decide) (by decide) (by decide)
    rw [h]
    decide

/-! Claim C10: the per-phase statistics partition the candidates. -/

/-- The counter invariant of one phase run. -/
def statsPartition (st : PhaseState) : Prop :=
  st.2.2.candidatesTested = st.2.2.rejectedEdge + st.2.2.inside ∧
    st.2.2.inside = st.2.2.rejectedOverlap + st.1.length

theorem processCandidate_statsPartition (polys : List Region) (dims : Dims)
    (padObs : List CircleObs) (trackObs : List TrackObs) (y : ℤ)
    (st : PhaseState) (x : ℤ) (h : statsPartition st) :
    statsPartition (processCandidate polys dims padObs trackObs y st x) := by
  obtain ⟨vias, viaObs, s⟩ := st
  obtain ⟨h1, h2⟩ := h
  rw [processCandidate]
  split_ifs <;> simp_all [statsPartition] <;> omega

theorem buildCandidatesForPhase_statsPartition (zone : ZoneData) (polys : List Region)
    (dims : Dims) (viaObsSeed padObs : List CircleObs) (trackObs : List TrackObs)
    (phaseX phaseY : ℤ) (centerSegments maximizeVias : Bool) :
    (buildCandidatesForPhase zone polys dims viaObsSeed padObs trackObs
        phaseX phaseY centerSegments maximizeVias).2.candidatesTested =
      (buildCandidatesForPhase zone polys dims viaObsSeed padObs trackObs
        phaseX phaseY centerSegments maximizeVias).2.rejectedEdge +
      (buildCandidatesForPhase zone polys dims viaObsSeed padObs trackObs
        phaseX phaseY centerSegments maximizeVias).2.inside ∧
    (buildCandidatesForPhase zone polys dims viaObsSeed padObs trackObs
        phaseX phaseY centerSegments maximizeVias).2.inside =
      (buildCandidatesForPhase zone polys dims viaObsSeed padObs trackObs
        phaseX phaseY centerSegments maximizeVias).2.rejectedOverlap +
      (buildCandidatesForPhase zone polys dims viaObsSeed padObs trackObs
        phaseX phaseY centerSegments maximizeVias).1.length := by
  have hfold : statsPartition
      ((rowYs ((zoneBBox zone).2.1 + (phaseY - (zoneBBox zone).2.1) % dims.stepY)
        (zoneBBox zone).2.2.2 dims.stepY).foldl
        (fun st yy =>
          (rowSegmentPoints (rowIntervals polys yy) dims.stepX
            ((zoneBBox zone).1 + (phaseX - (zoneBBox zone).1) % dims.stepX)
            centerSegments maximizeVias).foldl
            (processCandidate polys dims padObs trackObs yy) st)
        ([], viaObsSeed, ⟨0, 0, 0, 0⟩)) := by
    apply foldl_preserve statsPartition
    · intro st yy hst
      exact foldl_preserve statsPartition _
        (fun st2 x2 h2 => processCandidate_statsPartition polys dims padObs trackObs yy st2 x2 h2)
        _ st hst
    · exact ⟨rfl, rfl⟩
  rw [buildCandidatesForPhase]
  exact hfold

/-- Claim C10: for every per-phase run, `candidates_tested` equals
`rejected_edge + inside` and `inside` equals `rejected_overlap` plus the
number of accepted vias, so each tested candidate falls in exactly one of
the buckets accepted, rejected-by-edge, rejected-by-overlap.  (Positive
pitches delimit the modelled regime; the counters partition for any
arguments of the model.) -/
theorem claim_C10 (zone : ZoneData) (polys : List Region) (dims : Dims)
    (viaObsSeed padObs : List CircleObs) (trackObs : List TrackObs)
    (phaseX phaseY : ℤ) (centerSegments maximizeVias : Bool)
    (hsx : 0 < dims.stepX) (hsy : 0 < dims.stepY) :
    (buildCandidatesForPhase zone polys dims viaObsSeed padObs trackObs
        phaseX phaseY centerSegments maximizeVias).2.candidatesTested =
      (buildCandidatesForPhase zone polys dims viaObsSeed padObs trackObs
        phaseX phaseY centerSegments maximizeVias).2.rejectedEdge +
      (buildCandidatesForPhase zone polys dims viaObsSeed padObs trackObs
        phaseX phaseY centerSegments maximizeVias).2.inside ∧
    (buildCandidatesForPhase zone polys dims viaObsSeed padObs trackObs
        phaseX phaseY centerSegments maximizeVias).2.inside =
      (buildCandidatesForPhase zone polys dims viaObsSeed padObs trackObs
        phaseX phaseY centerSegments maximizeVias).2.rejectedOverlap +
      (buildCandidatesForPhase zone polys dims viaObsSeed padObs trackObs
        phaseX phaseY centerSegments maximizeVias).1.length :=
  buildCandidatesForPhase_statsPartition zone polys dims viaObsSeed padObs trackObs
    phaseX phaseY centerSegments maximizeVias

/-- Claim C10 witness: the partition at a concrete run over the small
square zone. -/
theorem claim_C10_witness :
    (0 : ℤ) < c5Dims.stepX ∧
    (buildCandidatesForPhase zone10 [sq10] c5Dims [] [] [] c5Dims.offX c5Dims.offY
        false false).2.candidatesTested =
      (buildCandidatesForPhase zone10 [sq10] c5Dims [] [] [] c5Dims.offX c5Dims.offY
        false false).2.rejectedEdge +
      (buildCandidatesForPhase zone10 [sq10] c5Dims [] [] [] c5Dims.offX c5Dims.offY
        false false).2.inside :=
  ⟨by decide,
    (claim_C10 zone10 [sq10] c5Dims [] [] [] c5Dims.offX c5Dims.offY false false
      (by decide) (by decide)).1⟩

/-! Claim C1: spacing of the points accepted in one run. -/

theorem circleConflict_false_spacing {x y ox oy orad lim : ℤ}
    (h : circleConflict x y ox oy orad lim = false) (hm : 0 < lim + orad) :
    (lim + orad) * (lim + orad) ≤ (x - ox) * (x - ox) + (y - oy) * (y - oy) := by
  rw [circleConflict] at h
  simp only [decide_eq_false_iff_not, not_and, not_lt] at h
  exact h hm

/-- The self-reservation invariant of one phase run: every accepted point
is registered as a via obstacle, and accepted points are pairwise at
squared distance at least the square of `2*(via_size//2) + pad_margin`. -/
def spacingInv (dims : Dims) (st : PhaseState) : Prop :=
  (∀ p ∈ st.1, ((p.1, p.2, dims.viaSize / 2) : CircleObs) ∈ st.2.1) ∧
    List.Pairwise
      (fun p q : Pt =>
        (2 * (dims.viaSize / 2) + dims.padMargin) * (2 * (dims.viaSize / 2) + dims.padMargin) ≤
          ptDistSq p q)
      st.1

theorem processCandidate_spacingInv (polys : List Region) (dims : Dims)
    (padObs : List CircleObs) (trackObs : List TrackObs) (y : ℤ)
    (hm : 0 < 2 * (dims.viaSize / 2) + dims.padMargin)
    (st : PhaseState) (x : ℤ) (h : spacingInv dims st) :
    spacingInv dims (processCandidate polys dims padObs trackObs y st x) := by
  obtain ⟨vias, viaObs, s⟩ := st
  obtain ⟨h1, h2⟩ := h
  rw [processCandidate]
  split_ifs with hin hc
  · exact ⟨h1, h2⟩
  · exact ⟨h1, h2⟩
  · constructor
    · intro p hp
      rcases List.mem_append.mp hp with hp | hp
      · exact List.mem_append_left _ (h1 p hp)
      · rcases List.mem_singleton.mp hp with rfl
        exact List.mem_append_right _ (List.mem_singleton.mpr rfl)
    · rw [List.pairwise_append]
      refine ⟨h2, List.pairwise_singleton _ _, ?_⟩
      intro p hp q hq
      rcases List.mem_singleton.mp hq with rfl
      have hobs : ((p.1, p.2, dims.viaSize / 2) : CircleObs) ∈ viaObs := h1 p hp
      rw [conflictsWithObstacles] at hc
      have hcf := Bool.eq_false_iff.mpr hc
      simp only [Bool.or_eq_false_iff] at hcf
      have hany := hcf.1.1
      rw [List.any_eq_false] at hany
      have hcf : circleConflict x y p.1 p.2 (dims.viaSize / 2)
          (dims.viaSize / 2 + dims.padMargin) = false := by
        have := hany _ hobs
        exact Bool.eq_false_iff.mpr this
      have hsp := circleConflict_false_spacing hcf (by omega)
      rw [ptDistSq]
      have heq : (x - p.1) * (x - p.1) + (y - p.2) * (y - p.2) =
          (p.1 - x) * (p.1 - x) + (p.2 - y) * (p.2 - y) := by ring
      rw [heq] at hsp
      have heq2 : dims.viaSize / 2 + dims.padMargin + dims.viaSize / 2 =
          2 * (dims.viaSize / 2) + dims.padMargin := by ring
      rw [heq2] at hsp
      exact hsp

theorem buildCandidatesForPhase_spacing (zone : ZoneData) (polys : List Region)
    (dims : Dims) (viaObsSeed padObs : List CircleObs) (trackObs : List TrackObs)
    (phaseX phaseY : ℤ) (centerSegments maximizeVias : Bool)
    (hm : 0 < 2 * (dims.viaSize / 2) + dims.padMargin) :
    List.Pairwise
      (fun p q : Pt =>
        (2 * (dims.viaSize / 2) + dims.padMargin) * (2 * (dims.viaSize / 2) + dims.padMargin) ≤
          ptDistSq p q)
      (buildCandidatesForPhase zone polys dims viaObsSeed padObs trackObs
        phaseX phaseY centerSegments maximizeVias).1 := by
  have hfold : spacingInv dims
      ((rowYs ((zoneBBox zone).2.1 + (phaseY - (zoneBBox zone).2.1) % dims.stepY)
        (zoneBBox zone).2.2.2 dims.stepY).foldl
        (fun st yy =>
          (rowSegmentPoints (rowIntervals polys yy) dims.stepX
            ((zoneBBox zone).1 + (phaseX - (zoneBBox zone).1) % dims.stepX)
            centerSegments maximizeVias).foldl
            (processCandidate polys dims padObs trackObs yy) st)
        ([], viaObsSeed, ⟨0, 0, 0, 0⟩)) := by
    apply foldl_preserve (spacingInv dims)
    · intro st yy hst
      exact foldl_preserve (spacingInv dims) _
        (fun st2 x2 h2 => processCandidate_spacingInv polys dims padObs trackObs yy hm st2 x2 h2)
        _ st hst
    · exact ⟨by intro p hp; exact absurd hp (List.not_mem_nil p), List.Pairwise.nil⟩
  rw [buildCandidatesForPhase]
  exact hfold.2

/-- Claim C1 (amended): in every run of `_build_candidates` (grid or
maximize), the accepted points are pairwise at distance at least
`2*(via_size // 2) + pad_margin` (stated on squared distances), provided
that bound is positive.  For even via sizes with zero pad margin this is
exactly the via diameter; for odd via sizes it is one unit less, which is
why the original claim fails. -/
theorem claim_C1_amended (board : BoardState) (zone : ZoneData) (polys : List Region)
    (dims : Dims) (ignoreOwnedIds : List String)
    (includeOtherLayers centerSegments maximizeVias : Bool)
    (hm : 0 < 2 * (dims.viaSize / 2) + dims.padMargin) :
    List.Pairwise
      (fun p q : Pt =>
        (2 * (dims.viaSize / 2) + dims.padMargin) * (2 * (dims.viaSize / 2) + dims.padMargin) ≤
          ptDistSq p q)
      (buildCandidates board zone polys dims ignoreOwnedIds
        includeOtherLayers centerSegments maximizeVias).1 := by
  rw [buildCandidates]
  refine foldl_preserve
    (fun (st : BCState) =>
      List.Pairwise
        (fun p q : Pt =>
          (2 * (dims.viaSize / 2) + dims.padMargin) *
              (2 * (dims.viaSize / 2) + dims.padMargin) ≤ ptDistSq p q)
        st.1)
    _ ?_ _ _ List.Pairwise.nil
  intro st ph hst
  rw [bcStep]
  cases hb : st.2.2 with
  | none =>
    simp only
    exact buildCandidatesForPhase_spacing zone polys dims _ _ _ ph.1 ph.2
      centerSegments maximizeVias hm
  | some b =>
    simp only
    split_ifs with hlt
    · exact buildCandidatesForPhase_spacing zone polys dims _ _ _ ph.1 ph.2
        centerSegments maximizeVias hm
    · exact hst

/-- Claim C1 counterexample: with the valid parameters of `cex1Dims`
(via size 3 nm, drill 1 nm, pitch 2 nm) on the obstacle-free square zone,
the run accepts both (1, 5) and (3, 5), two distinct points whose
distance 2 is below the via diameter 3, refuting
`distance(P, Q) >= via_diameter`. -/
theorem claim_C1_counterexample :
    validateSettings cex1Dims = true ∧
    ((1, 5) : Pt) ∈ (buildCandidates emptyBoard zone10 [sq10] cex1Dims [] true false false).1 ∧
    ((3, 5) : Pt) ∈ (buildCandidates emptyBoard zone10 [sq10] cex1Dims [] true false false).1 ∧
    ((1, 5) : Pt) ≠ ((3, 5) : Pt) ∧
    ptDistSq (1, 5) (3, 5) < cex1Dims.viaSize * cex1Dims.viaSize := by
  decide

/-- Claim C1 witness: the amended bound applied to a concrete run with
via size 2 and pad margin 0, where the bound `2*(2/2)+0 = 2` is positive. -/
theorem claim_C1_witness :
    (0 : ℤ) < 2 * (c7Dims.viaSize / 2) + c7Dims.padMargin ∧
    List.Pairwise
      (fun p q : Pt =>
        (2 * (c7Dims.viaSize / 2) + c7Dims.padMargin) *
            (2 * (c7Dims.viaSize / 2) + c7Dims.padMargin) ≤ ptDistSq p q)
      (buildCandidates emptyBoard zone10 [sq10] c7Dims [] true false false).1 :=
  ⟨by decide,
    claim_C1_amended emptyBoard zone10 [sq10] c7Dims [] true false false (by decide)⟩

/-! Claim C3: the phase search never loses to the default phase. -/

theorem scoreLt_trans {a b c : Score} (h1 : scoreLt a b = true) (h2 : scoreLt b c = true) :
    scoreLt a c = true := by
  simp only [scoreLt, decide_eq_true_eq] at h1 h2 ⊢
  omega

theorem scoreLt_irrefl (a : Score) : scoreLt a a = false := by
  simp only [scoreLt, decide_eq_false_iff_not]
  omega

theorem scoreLt_false_first {a b : Score} (h : scoreLt a b = false) : b.1 ≤ a.1 := by
  simp only [scoreLt, decide_eq_false_iff_not] at h
  omega

/-- Score of one phase of `_build_candidates` with fixed surroundings. -/
def phaseScore (zone : ZoneData) (polys : List Region) (dims : Dims)
    (viaObsSeed padObs : List CircleObs) (trackObs : List TrackObs)
    (centerSegments maximizeVias : Bool) (ph : ℤ × ℤ) : Score :=
  let run := buildCandidatesForPhase zone polys dims viaObsSeed padObs trackObs
    ph.1 ph.2 centerSegments maximizeVias
  scoreOf run.1 run.2 ph.2

theorem bc_fold_keeps (zone : ZoneData) (polys : List Region) (dims : Dims)
    (viaObsSeed padObs : List CircleObs) (trackObs : List TrackObs)
    (centerSegments maximizeVias : Bool) (q : Score) :
    ∀ (l : List (ℤ × ℤ)) (st : BCState) (s0 : Score),
      st.2.2 = some s0 → scoreLt s0 q = false →
      ∃ s, (l.foldl (bcStep zone polys dims viaObsSeed padObs trackObs
        centerSegments maximizeVias) st).2.2 = some s ∧ scoreLt s q = false := by
  intro l
  induction l with
  | nil => intro st s0 h1 h2; exact ⟨s0, h1, h2⟩
  | cons p t ih =>
    intro st s0 h1 h2
    rw [List.foldl_cons]
    have hstep : bcStep zone polys dims viaObsSeed padObs trackObs
        centerSegments maximizeVias st p =
        (if scoreLt s0 (phaseScore zone polys dims viaObsSeed padObs trackObs
            centerSegments maximizeVias p) then
          ((buildCandidatesForPhase zone polys dims viaObsSeed padObs trackObs
              p.1 p.2 centerSegments maximizeVias).1,
            (buildCandidatesForPhase zone polys dims viaObsSeed padObs trackObs
              p.1 p.2 centerSegments maximizeVias).2,
            some (phaseScore zone polys dims viaObsSeed padObs trackObs
              centerSegments maximizeVias p))
        else st) := by
      rw [bcStep, h1, phaseScore]
    rw [hstep]
    split_ifs with hlt
    · have hscq : scoreLt (phaseScore zone polys dims viaObsSeed padObs trackObs
          centerSegments maximizeVias p) q = false := by
        cases hq : scoreLt (phaseScore zone polys dims viaObsSeed padObs trackObs
            centerSegments maximizeVias p) q
        · rfl
        · rw [scoreLt_trans hlt hq] at h2
          exact absurd h2 (by simp)
      exact ih _ _ rfl hscq
    · exact ih _ _ h1 h2

theorem bc_fold_ge (zone : ZoneData) (polys : List Region) (dims : Dims)
    (viaObsSeed padObs : List CircleObs) (trackObs : List TrackObs)
    (centerSegments maximizeVias : Bool) :
    ∀ (l : List (ℤ × ℤ)) (st : BCState) (p : ℤ × ℤ), p ∈ l →
      ∃ s, (l.foldl (bcStep zone polys dims viaObsSeed padObs trackObs
        centerSegments maximizeVias) st).2.2 = some s ∧
        scoreLt s (phaseScore zone polys dims viaObsSeed padObs trackObs
          centerSegments maximizeVias p) = false := by
  intro l
  induction l with
  | nil => intro st p hp; exact absurd hp (List.not_mem_nil p)
  | cons hd t ih =>
    intro st p hp
    rw [List.foldl_cons]
    rcases List.mem_cons.mp hp with rfl | hp
    · set sc := phaseScore zone polys dims viaObsSeed padObs trackObs
        centerSegments maximizeVias p with hsc
      have hstep : ∃ s1, (bcStep zone polys dims viaObsSeed padObs trackObs
          centerSegments maximizeVias st p).2.2 = some s1 ∧ scoreLt s1 sc = false := by
        rw [bcStep]
        simp only [phaseScore] at hsc
        cases hb : st.2.2 with
        | none => exact ⟨sc, by simp [← hsc], scoreLt_irrefl sc⟩
        | some b =>
          simp only
          split_ifs with hlt
          · exact ⟨sc, by simp [← hsc], scoreLt_irrefl sc⟩
          · exact ⟨b, hb, by rw [← hsc] at hlt; exact Bool.eq_false_iff.mpr hlt⟩
      obtain ⟨s1, hs1, hs1le⟩ := hstep
      exact bc_fold_keeps zone polys dims viaObsSeed padObs trackObs
        centerSegments maximizeVias sc t _ s1 hs1 hs1le
    · exact ih _ p hp

theorem bc_fold_len (zone : ZoneData) (polys : List Region) (dims : Dims)
    (viaObsSeed padObs : List CircleObs) (trackObs : List TrackObs)
    (centerSegments maximizeVias : Bool) (l : List (ℤ × ℤ)) (st : BCState)
    (hst : ∀ s, st.2.2 = some s → s.1 = (st.1.length : ℤ)) :
    ∀ s, (l.foldl (bcStep zone polys dims viaObsSeed padObs trackObs
      centerSegments maximizeVias) st).2.2 = some s →
      s.1 = ((l.foldl (bcStep zone polys dims viaObsSeed padObs trackObs
        centerSegments maximizeVias) st).1.length : ℤ) := by
  refine foldl_preserve
    (fun (st2 : BCState) => ∀ s, st2.2.2 = some s → s.1 = (st2.1.length : ℤ))
    _ ?_ _ _ hst
  intro st2 ph h2
  rw [bcStep]
  cases hb : st2.2.2 with
  | none =>
    intro s hs
    simp only [Option.some.injEq] at hs
    rw [← hs, scoreOf]
  | some b =>
    simp only
    split_ifs with hlt
    · intro s hs
      simp only [Option.some.injEq] at hs
      rw [← hs, scoreOf]
    · exact h2

theorem phaseOffsets_mem_base (step baseOffset samples : ℤ) (hs : 0 < step) :
    baseOffset % step ∈ phaseOffsets step baseOffset samples := by
  rw [phaseOffsets, if_neg (by omega)]
  rw [sortedDedupInt, (List.perm_insertionSort _ _).mem_iff, List.mem_dedup]
  exact List.mem_cons_self _ _

theorem emod_phase_eq (p b n : ℤ) : (p % n - b) % n = (p - b) % n := by
  conv_rhs => rw [Int.sub_emod]
  rw [Int.sub_emod, Int.emod_emod_of_dvd p dvd_rfl]

theorem buildCandidatesForPhase_mod (zone : ZoneData) (polys : List Region)
    (dims : Dims) (viaObsSeed padObs : List CircleObs) (trackObs : List TrackObs)
    (centerSegments maximizeVias : Bool) :
    buildCandidatesForPhase zone polys dims viaObsSeed padObs trackObs
      (dims.offX % dims.stepX) (dims.offY % dims.stepY) centerSegments maximizeVias =
    buildCandidatesForPhase zone polys dims viaObsSeed padObs trackObs
      dims.offX dims.offY centerSegments maximizeVias := by
  rw [buildCandidatesForPhase, buildCandidatesForPhase]
  rw [emod_phase_eq dims.offX (zoneBBox zone).1 dims.stepX]
  rw [emod_phase_eq dims.offY (zoneBBox zone).2.1 dims.stepY]

/-- Claim C3: the phase chosen by the search of `_build_candidates`
(scored lexicographically by accepted count, negated total rejections,
negated edge rejections) accepts at least as many points as the run at the
default phase offset `(off_x, off_y)`. -/
theorem claim_C3 (board : BoardState) (zone : ZoneData) (polys : List Region)
    (dims : Dims) (ignoreOwnedIds : List String)
    (includeOtherLayers centerSegments maximizeVias : Bool)
    (hsx : 0 < dims.stepX) (hsy : 0 < dims.stepY) :
    (buildCandidatesForPhase zone polys dims
        (gatherViaObstacles board ignoreOwnedIds zone.layers includeOtherLayers)
        (gatherPadObstacles board zone.layers includeOtherLayers)
        (gatherTrackObstacles board zone.layers includeOtherLayers)
        dims.offX dims.offY centerSegments maximizeVias).1.length ≤
      (buildCandidates board zone polys dims ignoreOwnedIds
        includeOtherLayers centerSegments maximizeVias).1.length := by
  set seed := gatherViaObstacles board ignoreOwnedIds zone.layers includeOtherLayers
  set pads := gatherPadObstacles board zone.layers includeOtherLayers
  set tracks := gatherTrackObstacles board zone.layers includeOtherLayers
  have hmem : ((dims.offX % dims.stepX, dims.offY % dims.stepY) : ℤ × ℤ) ∈
      bcPhases dims centerSegments maximizeVias := by
    rw [bcPhases]
    rw [List.mem_flatMap]
    exact ⟨dims.offY % dims.stepY, phaseOffsets_mem_base _ _ _ hsy,
      List.mem_map.mpr ⟨dims.offX % dims.stepX, phaseOffsets_mem_base _ _ _ hsx, rfl⟩⟩
  obtain ⟨s, hs, hsge⟩ := bc_fold_ge zone polys dims seed pads tracks
    centerSegments maximizeVias (bcPhases dims centerSegments maximizeVias)
    ([], ⟨0, 0, 0, 0⟩, none) _ hmem
  have hlen := bc_fold_len zone polys dims seed pads tracks centerSegments maximizeVias
    (bcPhases dims centerSegments maximizeVias) ([], ⟨0, 0, 0, 0⟩, none)
    (fun s hsome => by simp at hsome) s hs
  have hfirst := scoreLt_false_first hsge
  rw [phaseScore] at hfirst
  simp only [scoreOf] at hfirst
  rw [buildCandidatesForPhase_mod zone polys dims seed pads tracks
    centerSegments maximizeVias] at hfirst
  rw [hlen] at hfirst
  rw [buildCandidates]
  exact_mod_cast hfirst

/-- Claim C3 witness: the non-regression bound at a concrete run. -/
theorem claim_C3_witness :
    (0 : ℤ) < c7Dims.stepX ∧
    (buildCandidatesForPhase zone10 [sq10] c7Dims
        (gatherViaObstacles emptyBoard [] zone10.layers true)
        (gatherPadObstacles emptyBoard zone10.layers true)
        (gatherTrackObstacles emptyBoard zone10.layers true)
        c7Dims.offX c7Dims.offY false false).1.length ≤
      (buildCandidates emptyBoard zone10 [sq10] c7Dims [] true false false).1.length :=
  ⟨by decide,
    claim_C3 emptyBoard zone10 [sq10] c7Dims [] true false false (by decide) (by decide)⟩

/-! Claim C5: an empty accepted set aborts the update with the run
statistics, before any board mutation. -/

/-- Claim C5: whenever the phase search of an update accepts nothing, the
update returns the `No vias placed` failure carrying exactly the run's
diagnostic statistics (candidates tested, inside, rejected overlap,
rejected edge); the failure is produced before the removal, creation and
metadata steps, so no new board state is produced. -/
theorem claim_C5 (board : BoardState) (zone : ZoneData) (polys : List Region)
    (dims : Dims) (includeOtherLayers centerSegments maximizeVias : Bool)
    (ownedIds : List String) (replaceUserVias : Bool) (freshIds : List String)
    (h : (buildCandidates board zone polys dims
        (updateIgnoreIds (ownedIds.filter (fun s => s ≠ ""))
          (viasOnZoneNetInside board zone polys (ownedIds.filter (fun s => s ≠ "")))
          replaceUserVias)
        includeOtherLayers centerSegments maximizeVias).1 = []) :
    updateZoneArray board zone polys dims includeOtherLayers centerSegments maximizeVias
        ownedIds replaceUserVias freshIds =
      Except.error
        (buildCandidates board zone polys dims
          (updateIgnoreIds (ownedIds.filter (fun s => s ≠ ""))
            (viasOnZoneNetInside board zone polys (ownedIds.filter (fun s => s ≠ "")))
            replaceUserVias)
          includeOtherLayers centerSegments maximizeVias).2 := by
  rw [updateZoneArray]
  simp only [h, List.isEmpty_nil, if_true]

/-- Claim C5 witness: on the small square zone with an edge margin that
rejects every candidate, the update fails with the exact statistics of
the run (6 tested, 0 inside, 0 overlap rejections, 6 edge rejections). -/
theorem claim_C5_witness :
    updateZoneArray emptyBoard zone10 [sq10] c5Dims true false false [] false [] =
      Except.error ⟨6, 0, 0, 6⟩ := by
  rw [claim_C5 emptyBoard zone10 [sq10] c5Dims true false false [] false [] (by decide)]
  decide

/-! Claim C7: wholesale replacement of the owned via set. -/

/-- Claim C7: on every successful update, (1) no via whose identifier is
in the stored owned set survives on the board (all owned vias found by
identifier were removed, and host-created vias carry fresh identifiers),
(2) the recorded owned set is exactly the identifiers of the freshly
created vias, and (3) consequently no old owned identifier remains in the
new owned set: a wholesale replacement, not an incremental diff. -/
theorem claim_C7 (board : BoardState) (zone : ZoneData) (polys : List Region)
    (dims : Dims) (includeOtherLayers centerSegments maximizeVias : Bool)
    (ownedIds : List String) (replaceUserVias : Bool) (freshIds : List String)
    (outcome : UpdateOutcome)
    (hok : updateZoneArray board zone polys dims includeOtherLayers centerSegments
        maximizeVias ownedIds replaceUserVias freshIds = Except.ok outcome)
    (hfresh : ∀ s ∈ freshIds, s ∉ ownedIds) :
    outcome.ownedViaIds = (outcome.created.map (fun v => v.id)).filter (fun s => s ≠ "") ∧
    (∀ v ∈ outcome.board.vias, v.id ≠ "" → v.id ∉ ownedIds) ∧
    (∀ s ∈ outcome.ownedViaIds, s ∉ ownedIds) := by
  rw [updateZoneArray] at hok
  by_cases hempty : (buildCandidates board zone polys dims
      (updateIgnoreIds (ownedIds.filter (fun s => s ≠ ""))
        (viasOnZoneNetInside board zone polys (ownedIds.filter (fun s => s ≠ "")))
        replaceUserVias)
      includeOtherLayers centerSegments maximizeVias).1.isEmpty
  · rw [if_pos hempty] at hok
    exact absurd hok (by simp)
  · rw [if_neg hempty] at hok
    rw [Except.ok.injEq] at hok
    subst hok
    refine ⟨rfl, ?_, ?_⟩
    · intro v hv hvne hvowned
      have hvclean : v.id ∈ ownedIds.filter (fun s => s ≠ "") :=
        List.mem_filter.mpr ⟨hvowned, by simp [hvne]⟩
      simp only [BoardState.mk.injEq] at hv
      rcases List.mem_append.mp hv with hkept | hcreated
      · obtain ⟨hvboard, hnotrm⟩ := List.mem_filter.mp hkept
        have hfind : ∃ w, board.vias.find? (fun w => w.id = v.id) = some w := by
          have : (board.vias.find? (fun w => decide (w.id = v.id))).isSome := by
            rw [List.find?_isSome]
            exact ⟨v, hvboard, by simp⟩
          exact Option.isSome_iff_exists.mp this
        obtain ⟨w, hw⟩ := hfind
        have hwid : w.id = v.id := by
          have := List.find?_some hw
          simpa using this
        have hwmem : w ∈ (ownedIds.filter (fun s => s ≠ "")).filterMap
            (fun vid => board.vias.find? (fun v2 => v2.id = vid)) := by
          rw [List.mem_filterMap]
          exact ⟨v.id, hvclean, hw⟩
        have hwrm : w.id ∈ (((ownedIds.filter (fun s => s ≠ "")).filterMap
              (fun vid => board.vias.find? (fun v2 => v2.id = vid)) ++
              (if replaceUserVias then viasOnZoneNetInside board zone polys
                (ownedIds.filter (fun s => s ≠ "")) else [])).map
            (fun v2 => v2.id)).filter (fun s => s ≠ "") := by
          rw [List.mem_filter]
          constructor
          · exact List.mem_map.mpr ⟨w, List.mem_append_left _ hwmem, rfl⟩
          · rw [hwid]
            simp [hvne]
        rw [hwid] at hwrm
        have : ((((ownedIds.filter (fun s => s ≠ "")).filterMap
              (fun vid => board.vias.find? (fun v2 => v2.id = vid)) ++
              (if replaceUserVias then viasOnZoneNetInside board zone polys
                (ownedIds.filter (fun s => s ≠ "")) else [])).map
            (fun v2 => v2.id)).filter (fun s => s ≠ "")).contains v.id = true := by
          rw [List.contains_eq_any_beq, List.any_eq_true]
          exact ⟨v.id, hwrm, by simp⟩
        rw [this] at hnotrm
        exact absurd hnotrm (by simp)
      · rw [List.mem_map] at hcreated
        obtain ⟨pi, hpi, hpieq⟩ := hcreated
        have hid : v.id = pi.2 := by rw [← hpieq]
        have hpi2 : pi.2 ∈ freshIds := by
          have := (List.of_mem_zip hpi).2
          exact List.take_subset _ _ this
        rw [hid] at hvowned
        exact hfresh pi.2 hpi2 hvowned
    · intro s hs hsowned
      rw [List.mem_filter] at hs
      obtain ⟨hs1, hsne⟩ := hs
      rw [List.mem_map] at hs1
      obtain ⟨v, hv, hvid⟩ := hs1
      rw [List.mem_map] at hv
      obtain ⟨pi, hpi, hpieq⟩ := hv
      have hpi2 : pi.2 ∈ freshIds := by
        have := (List.of_mem_zip hpi).2
        exact List.take_subset _ _ this
      have hspi : s = pi.2 := by rw [← hvid, ← hpieq]
      rw [hspi] at hsowned
      exact hfresh pi.2 hpi2 hsowned

/-- Claim C7 witness: a concrete successful update replacing the single
owned via with four freshly created ones. -/
theorem claim_C7_witness :
    ∃ outcome,
      updateZoneArray c7Board zone10 [sq10] c7Dims true false false ["old1"] false
          ["n1", "n2", "n3", "n4"] = Except.ok outcome ∧
      outcome.ownedViaIds = (outcome.created.map (fun v => v.id)).filter (fun s => s ≠ "") ∧
      (∀ v ∈ outcome.board.vias, v.id ≠ "" → v.id ∉ (["old1"] : List String)) := by
  cases hrun : updateZoneArray c7Board zone10 [sq10] c7Dims true false false ["old1"] false
      ["n1", "n2", "n3", "n4"] with
  | error e =>
    exfalso
    have hok : (updateZoneArray c7Board zone10 [sq10] c7Dims true false false ["old1"] false
        ["n1", "n2", "n3", "n4"]).isOk = true := by decide
    rw [hrun] at hok
    exact Bool.noConfusion hok
  | ok outcome =>
    have h := claim_C7 c7Board zone10 [sq10] c7Dims true false false ["old1"] false
      ["n1", "n2", "n3", "n4"] outcome hrun (by decide)
    exact ⟨outcome, rfl, h.1, h.2.1⟩

/-! Claim C8: algebra of the sorted-interval operations. -/

theorem intervalLeP_iff (p q : Q × Q) :
    intervalLeP p q ↔
      (p.1.toRat < q.1.toRat ∨ (p.1.toRat = q.1.toRat ∧ p.2.toRat ≤ q.2.toRat)) := by
  rw [intervalLeP, intervalLeB, Bool.or_eq_true, Bool.and_eq_true,
    Q.lt_iff, Q.beq_iff, Q.le_iff]

theorem intervalLeP_fst {p q : Q × Q} (h : intervalLeP p q) :
    p.1.toRat ≤ q.1.toRat := by
  rcases (intervalLeP_iff p q).mp h with h1 | ⟨h1, -⟩
  · exact le_of_lt h1
  · exact le_of_eq h1

theorem mergeAux_head : ∀ (l : List (Q × Q)) (cur : Q × Q),
    ∃ s tl, mergeAux cur l = (cur.1, s) :: tl ∧ cur.2.toRat ≤ s.toRat := by
  intro l
  induction l with
  | nil => intro cur; exact ⟨cur.2, [], rfl, le_refl _⟩
  | cons ab rest ih =>
    intro cur
    obtain ⟨a, b⟩ := ab
    rw [mergeAux]
    by_cases hle : a.le cur.2
    · rw [if_pos hle]
      obtain ⟨s, tl, heq, hs⟩ := ih (cur.1, cur.2.max2 b)
      refine ⟨s, tl, heq, le_trans ?_ hs⟩
      rw [Q.toRat_max2]
      exact le_max_left _ _
    · rw [if_neg hle]
      exact ⟨cur.2, mergeAux (a, b) rest, rfl, le_refl _⟩

theorem mergeAux_covering :
    ∀ (l : List (Q × Q)) (cur : Q × Q),
      List.Pairwise (fun p q : Q × Q => p.1.toRat ≤ q.1.toRat) (cur :: l) →
      ∀ y ∈ cur :: l,
        ∃ m ∈ mergeAux cur l, m.1.toRat ≤ y.1.toRat ∧ y.2.toRat ≤ m.2.toRat := by
  intro l
  induction l with
  | nil =>
    intro cur _ y hy
    rcases List.mem_cons.mp hy with rfl | hy
    · exact ⟨y, List.mem_singleton.mpr rfl, le_refl _, le_refl _⟩
    · exact absurd hy (List.not_mem_nil _)
  | cons ab rest ih =>
    intro cur hpw y hy
    obtain ⟨a, b⟩ := ab
    have hpw1 := List.pairwise_cons.mp hpw
    have hpw2 := List.pairwise_cons.mp hpw1.2
    have hcur_a : cur.1.toRat ≤ a.toRat := hpw1.1 (a, b) (List.mem_cons_self _ _)
    rw [mergeAux]
    by_cases hle : a.le cur.2
    · rw [if_pos hle]
      have hpw' : List.Pairwise (fun p q : Q × Q => p.1.toRat ≤ q.1.toRat)
          ((cur.1, cur.2.max2 b) :: rest) := by
        refine List.pairwise_cons.mpr ⟨?_, hpw2.2⟩
        intro z hz
        exact hpw1.1 z (List.mem_cons_of_mem _ hz)
      rcases List.mem_cons.mp hy with rfl | hy2
      · obtain ⟨m, hm, h1, h2⟩ := ih (y.1, y.2.max2 b) hpw' _ (List.mem_cons_self _ _)
        refine ⟨m, hm, h1, le_trans ?_ h2⟩
        show y.2.toRat ≤ (y.2.max2 b).toRat
        rw [Q.toRat_max2]
        exact le_max_left _ _
      · rcases List.mem_cons.mp hy2 with rfl | hy3
        · obtain ⟨m, hm, h1, h2⟩ := ih (cur.1, cur.2.max2 b) hpw' _ (List.mem_cons_self _ _)
          refine ⟨m, hm, le_trans h1 hcur_a, le_trans ?_ h2⟩
          show b.toRat ≤ (cur.2.max2 b).toRat
          rw [Q.toRat_max2]
          exact le_max_right _ _
        · obtain ⟨m, hm, h1, h2⟩ := ih (cur.1, cur.2.max2 b) hpw' y
            (List.mem_cons_of_mem _ hy3)
          exact ⟨m, hm, h1, h2⟩
    · rw [if_neg hle]
      rcases List.mem_cons.mp hy with rfl | hy2
      · obtain ⟨s, tl, heq, -⟩ := mergeAux_head rest (a, b)
        exact ⟨y, List.mem_cons_self _ _, le_refl _, le_refl _⟩
      · obtain ⟨m, hm, h1, h2⟩ := ih (a, b) hpw1.2 y hy2
        exact ⟨m, List.mem_cons_of_mem _ hm, h1, h2⟩

theorem mergeAux_chain : ∀ (l : List (Q × Q)) (cur : Q × Q),
    List.Chain' (fun p q : Q × Q => p.2.toRat < q.1.toRat) (mergeAux cur l) := by
  intro l
  induction l with
  | nil => intro cur; exact List.chain'_singleton _
  | cons ab rest ih =>
    intro cur
    obtain ⟨a, b⟩ := ab
    rw [mergeAux]
    by_cases hle : a.le cur.2
    · rw [if_pos hle]
      exact ih (cur.1, cur.2.max2 b)
    · rw [if_neg hle]
      obtain ⟨s, tl, heq, -⟩ := mergeAux_head rest (a, b)
      rw [heq]
      rw [List.chain'_cons]
      constructor
      · exact (Q.le_eq_false_iff _ _).mp (Bool.eq_false_iff.mpr hle)
      · rw [← heq]
        exact ih (a, b)

theorem mergeAux_sndDominates : ∀ (l : List (Q × Q)) (cur : Q × Q),
    ∀ z ∈ mergeAux cur l,
      ∃ y ∈ cur :: l, y.1.toRat = z.1.toRat ∧ y.2.toRat ≤ z.2.toRat := by
  intro l
  induction l with
  | nil =>
    intro cur z hz
    rcases List.mem_singleton.mp hz with rfl
    exact ⟨z, List.mem_cons_self _ _, rfl, le_refl _⟩
  | cons ab rest ih =>
    intro cur z hz
    obtain ⟨a, b⟩ := ab
    rw [mergeAux] at hz
    by_cases hle : a.le cur.2
    · rw [if_pos hle] at hz
      obtain ⟨y, hy, h1, h2⟩ := ih (cur.1, cur.2.max2 b) z hz
      rcases List.mem_cons.mp hy with rfl | hy2
      · refine ⟨cur, List.mem_cons_self _ _, h1, le_trans ?_ h2⟩
        rw [Q.toRat_max2]
        exact le_max_left _ _
      · exact ⟨y, List.mem_cons_of_mem _ (List.mem_cons_of_mem _ hy2), h1, h2⟩
    · rw [if_neg hle] at hz
      rcases List.mem_cons.mp hz with rfl | hz2
      · exact ⟨z, List.mem_cons_self _ _, rfl, le_refl _⟩
      · obtain ⟨y, hy, h1, h2⟩ := ih (a, b) z hz2
        exact ⟨y, List.mem_cons_of_mem _ hy, h1, h2⟩

theorem mergeAux_sorted : ∀ (l : List (Q × Q)) (cur : Q × Q),
    List.Pairwise intervalLeP (cur :: l) →
    List.Pairwise intervalLeP (mergeAux cur l) := by
  intro l
  induction l with
  | nil => intro cur _; exact List.pairwise_singleton _ _
  | cons ab rest ih =>
    intro cur hpw
    obtain ⟨a, b⟩ := ab
    have hpw1 := List.pairwise_cons.mp hpw
    have hpw2 := List.pairwise_cons.mp hpw1.2
    have hcur_ab : intervalLeP cur (a, b) := hpw1.1 (a, b) (List.mem_cons_self _ _)
    rw [mergeAux]
    by_cases hle : a.le cur.2
    · rw [if_pos hle]
      apply ih
      refine List.pairwise_cons.mpr ⟨?_, hpw2.2⟩
      intro z hz
      have hcz : intervalLeP cur z := hpw1.1 z (List.mem_cons_of_mem _ hz)
      have habz : intervalLeP (a, b) z := hpw2.1 z hz
      rw [intervalLeP_iff] at hcz habz ⊢
      rcases hcz with h1 | ⟨h1, h2⟩
      · exact Or.inl h1
      · refine Or.inr ⟨h1, ?_⟩
        rw [Q.toRat_max2, max_le_iff]
        refine ⟨h2, ?_⟩
        rcases habz with h3 | ⟨h3, h4⟩
        · exfalso
          have hca : cur.1.toRat ≤ a.toRat := intervalLeP_fst hcur_ab
          simp only at h3
          rw [← h1] at h3
          exact absurd (lt_of_le_of_lt hca h3) (lt_irrefl _)
        · exact h4
    · rw [if_neg hle]
      refine List.pairwise_cons.mpr ⟨?_, ih (a, b) hpw1.2⟩
      intro z hz
      obtain ⟨y, hy, h1, h2⟩ := mergeAux_sndDominates rest (a, b) z hz
      have hcy : intervalLeP cur y := hpw1.1 y hy
      rw [intervalLeP_iff] at hcy ⊢
      rcases hcy with h3 | ⟨h3, h4⟩
      · exact Or.inl (h1 ▸ h3)
      · exact Or.inr ⟨h1 ▸ h3, le_trans h4 h2⟩

theorem mergeAux_of_chain : ∀ (l : List (Q × Q)) (x : Q × Q),
    List.Chain' (fun p q : Q × Q => p.2.toRat < q.1.toRat) (x :: l) →
    mergeAux x l = x :: l := by
  intro l
  induction l with
  | nil => intro x _; rfl
  | cons ab rest ih =>
    intro x hch
    obtain ⟨a, b⟩ := ab
    rw [List.chain'_cons] at hch
    have hle : a.le x.2 = false := by
      rw [Q.le_eq_false_iff]
      exact hch.1
    rw [mergeAux, hle]
    simp only [Bool.false_eq_true, if_false]
    rw [ih (a, b) hch.2]

theorem mergeIntervals_idem (X : List (Q × Q)) :
    mergeIntervals (mergeIntervals X) = mergeIntervals X := by
  cases hS : sortIntervals X with
  | nil =>
    have h1 : mergeIntervals X = [] := by rw [mergeIntervals, hS]
    rw [h1]
    rfl
  | cons x rest =>
    have h1 : mergeIntervals X = mergeAux x rest := by rw [mergeIntervals, hS]
    have hsorted : List.Pairwise intervalLeP (x :: rest) := by
      have := List.sorted_insertionSort intervalLeP X
      rw [sortIntervals] at hS
      rw [hS] at this
      exact this
    have hm_sorted : List.Pairwise intervalLeP (mergeAux x rest) :=
      mergeAux_sorted rest x hsorted
    have hm_chain := mergeAux_chain rest x
    have hsort_id : sortIntervals (mergeAux x rest) = mergeAux x rest := by
      rw [sortIntervals]
      exact List.Sorted.insertionSort_eq hm_sorted
    obtain ⟨s, tl, heq, -⟩ := mergeAux_head rest x
    rw [h1, mergeIntervals, hsort_id, heq]
    rw [heq] at hm_chain
    exact mergeAux_of_chain tl (x.1, s) hm_chain

theorem subtractIntervals_nil_cuts (base : List (Q × Q)) :
    subtractIntervals base [] = base := by
  cases base <;> rfl

theorem subtractGo_ge (b : Q) : ∀ (cuts : List (Q × Q)) (cur : Q),
    b.toRat ≤ cur.toRat → subtractGo b cur cuts = [] := by
  intro cuts
  induction cuts with
  | nil =>
    intro cur h
    rw [subtractGo, (Q.lt_eq_false_iff _ _).mpr h]
    simp
  | cons c rest ih =>
    intro cur h
    obtain ⟨ca, cb⟩ := c
    rw [subtractGo]
    by_cases h1 : cb.le cur
    · rw [if_pos h1]
      exact ih cur h
    · rw [if_neg h1]
      by_cases h2 : b.le ca
      · rw [if_pos h2]
        rw [(Q.lt_eq_false_iff _ _).mpr h]
        simp
      · rw [if_neg h2]
        have hca : ca.toRat < b.toRat := (Q.le_eq_false_iff _ _).mp (Bool.eq_false_iff.mpr h2)
        have hc1 : cur.lt ca = false :=
          (Q.lt_eq_false_iff _ _).mpr (le_of_lt (lt_of_lt_of_le hca h))
        have hc2 : b.le (cur.max2 cb) = true := by
          rw [Q.le_iff, Q.toRat_max2]
          exact le_trans h (le_max_left _ _)
        rw [hc1, hc2]
        simp

theorem subtractGo_covered (b : Q) (CA CB : Q) :
    ∀ (L1 L2 : List (Q × Q)) (cur : Q),
      (∀ c ∈ L1, c.1.toRat ≤ cur.toRat) → CA.toRat ≤ cur.toRat → b.toRat ≤ CB.toRat →
      subtractGo b cur (L1 ++ (CA, CB) :: L2) = [] := by
  intro L1
  induction L1 with
  | nil =>
    intro L2 cur hL1 hCA hCB
    rw [List.nil_append, subtractGo]
    by_cases h1 : CB.le cur
    · rw [if_pos h1]
      exact subtractGo_ge b L2 cur (le_trans hCB ((Q.le_iff _ _).mp h1))
    · rw [if_neg h1]
      by_cases h2 : b.le CA
      · rw [if_pos h2]
        rw [(Q.lt_eq_false_iff _ _).mpr (le_trans ((Q.le_iff _ _).mp h2) hCA)]
        simp
      · rw [if_neg h2]
        have hc1 : cur.lt CA = false := (Q.lt_eq_false_iff _ _).mpr hCA
        have hc2 : b.le (cur.max2 CB) = true := by
          rw [Q.le_iff, Q.toRat_max2]
          exact le_trans hCB (le_max_right _ _)
        rw [hc1, hc2]
        simp
  | cons c L1' ih =>
    intro L2 cur hL1 hCA hCB
    obtain ⟨ca, cb⟩ := c
    have hca : ca.toRat ≤ cur.toRat := hL1 (ca, cb) (List.mem_cons_self _ _)
    rw [List.cons_append, subtractGo]
    by_cases h1 : cb.le cur
    · rw [if_pos h1]
      exact ih L2 cur (fun c2 hc2 => hL1 c2 (List.mem_cons_of_mem _ hc2)) hCA hCB
    · rw [if_neg h1]
      by_cases h2 : b.le ca
      · rw [if_pos h2]
        rw [(Q.lt_eq_false_iff _ _).mpr (le_trans ((Q.le_iff _ _).mp h2) hca)]
        simp
      · rw [if_neg h2]
        have hc1 : cur.lt ca = false := (Q.lt_eq_false_iff _ _).mpr hca
        rw [hc1]
        simp only [Bool.false_eq_true, if_false, List.nil_append]
        by_cases h3 : b.le (cur.max2 cb)
        · rw [if_pos h3]
        · rw [if_neg h3]
          have hmax : cur.toRat ≤ (cur.max2 cb).toRat := by
            rw [Q.toRat_max2]
            exact le_max_left _ _
          exact ih L2 (cur.max2 cb)
            (fun c2 hc2 => le_trans (hL1 c2 (List.mem_cons_of_mem _ hc2)) hmax)
            (le_trans hCA hmax) hCB

theorem merge_covering_split (I : List (Q × Q)) (ab : Q × Q) (hab : ab ∈ I) :
    ∃ L1 C L2, mergeIntervals I = L1 ++ C :: L2 ∧
      C.1.toRat ≤ ab.1.toRat ∧ ab.2.toRat ≤ C.2.toRat ∧
      ∀ c ∈ L1, c.1.toRat ≤ ab.1.toRat := by
  have hmem : ab ∈ sortIntervals I := by
    rw [sortIntervals, (List.perm_insertionSort intervalLeP I).mem_iff]
    exact hab
  cases hS : sortIntervals I with
  | nil =>
    rw [hS] at hmem
    exact absurd hmem (List.not_mem_nil _)
  | cons x rest =>
    rw [hS] at hmem
    have hpwLe : List.Pairwise intervalLeP (x :: rest) := by
      have := List.sorted_insertionSort intervalLeP I
      rw [sortIntervals] at hS
      rw [hS] at this
      exact this
    have hfstLe : List.Pairwise (fun p q : Q × Q => p.1.toRat ≤ q.1.toRat) (x :: rest) :=
      hpwLe.imp intervalLeP_fst
    obtain ⟨m, hmmem, hm1, hm2⟩ := mergeAux_covering rest x hfstLe ab hmem
    have hmerge_eq : mergeIntervals I = mergeAux x rest := by rw [mergeIntervals, hS]
    obtain ⟨L1, L2, hsplit⟩ := List.append_of_mem hmmem
    have hm_sorted : List.Pairwise intervalLeP (mergeAux x rest) :=
      mergeAux_sorted rest x hpwLe
    rw [hsplit] at hm_sorted
    refine ⟨L1, m, L2, by rw [hmerge_eq, hsplit], hm1, hm2, ?_⟩
    intro c hc
    have h1 := (List.pairwise_append.mp hm_sorted).2.2 c hc m (List.mem_cons_self _ _)
    exact le_trans (intervalLeP_fst h1) hm1

theorem flatMap_eq_nil_of_all {α β : Type _} (l : List α) (f : α → List β)
    (h : ∀ x ∈ l, f x = []) : l.flatMap f = [] := by
  induction l with
  | nil => rfl
  | cons a t ih =>
    rw [List.flatMap_cons, h a (List.mem_cons_self _ _), List.nil_append]
    exact ih fun x hx => h x (List.mem_cons_of_mem _ hx)

theorem subtractIntervals_self (I : List (Q × Q)) : subtractIntervals I I = [] := by
  cases hI : I with
  | nil => rfl
  | cons i0 irest =>
    rw [subtractIntervals]
    simp only [List.isEmpty_cons, Bool.false_eq_true, if_false]
    apply flatMap_eq_nil_of_all
    intro p hp
    obtain ⟨L1, C, L2, hsplit, h1, h2, h3⟩ := merge_covering_split (i0 :: irest) p hp
    rw [hsplit]
    have hC : C = (C.1, C.2) := rfl
    rw [hC]
    exact subtractGo_covered p.2 C.1 C.2 L1 L2 p.1 h3 h1 h2

/-- Claim C8: the sorted-interval algebra satisfies
`merge(merge X) = merge X`, `subtract(I, []) = I` and
`subtract(I, I) = []` for every finite interval list. -/
theorem claim_C8 :
    (∀ X : List (Q × Q), mergeIntervals (mergeIntervals X) = mergeIntervals X) ∧
    (∀ I : List (Q × Q), subtractIntervals I [] = I) ∧
    (∀ I : List (Q × Q), subtractIntervals I I = []) :=
  ⟨mergeIntervals_idem, subtractIntervals_nil_cuts, subtractIntervals_self⟩

/-! Claim C4: target-count mode. -/

theorem foldl_preserve_mem {α σ : Type _} (P : σ → Prop) (l : List α) (f : σ → α → σ)
    (hstep : ∀ s a, a ∈ l → P s → P (f s a)) : ∀ s, P s → P (l.foldl f s) := by
  induction l with
  | nil => intro s hs; exact hs
  | cons a t ih =>
    intro s hs
    rw [List.foldl_cons]
    exact ih (fun s2 a2 ha2 h2 => hstep s2 a2 (List.mem_cons_of_mem _ ha2) h2)
      (f s a) (hstep s a (List.mem_cons_self _ _) hs)

theorem sq_lt_sq_bounds {x s : ℤ} (hs : 0 < s) (h : x * x < s * s) : -s < x ∧ x < s := by
  constructor
  · nlinarith
  · nlinarith

theorem ediv_diff_le_one {a b c : ℤ} (hc : 0 < c) (h1 : -c < a - b) (h2 : a - b < c) :
    (a / c - b / c).natAbs ≤ 1 := by
  have hd1 : a / c ≤ b / c + 1 := by
    have : a ≤ b + 1 * c := by omega
    have h3 : a / c ≤ (b + 1 * c) / c := Int.ediv_le_ediv hc this
    rwa [Int.add_mul_ediv_right _ _ (ne_of_gt hc)] at h3
  have hd2 : b / c ≤ a / c + 1 := by
    have : b ≤ a + 1 * c := by omega
    have h3 : b / c ≤ (a + 1 * c) / c := Int.ediv_le_ediv hc this
    rwa [Int.add_mul_ediv_right _ _ (ne_of_gt hc)] at h3
  omega

theorem hashConflict_false_spacing {s : ℤ} (hs : 0 < s) (accepted : List Pt) (px py : ℤ)
    (h : hashConflict s (s * s) accepted px py = false) :
    ∀ o ∈ accepted, s * s ≤ ptDistSq (px, py) o := by
  intro o ho
  by_contra hc
  push_neg at hc
  rw [ptDistSq] at hc
  have hx2 : (px - o.1) * (px - o.1) < s * s := by nlinarith
  have hy2 : (py - o.2) * (py - o.2) < s * s := by nlinarith
  obtain ⟨hx1, hx2'⟩ := sq_lt_sq_bounds hs hx2
  obtain ⟨hy1, hy2'⟩ := sq_lt_sq_bounds hs hy2
  rw [hashConflict, List.any_eq_false] at h
  apply h o ho
  rw [decide_eq_true_eq]
  refine ⟨ediv_diff_le_one hs (by omega) (by omega),
    ediv_diff_le_one hs (by omega) (by omega), by nlinarith⟩

/-- Pairwise minimum-spacing property of the accepted points of one
target-pattern evaluation. -/
def spacedPairwise (s : ℤ) (pts : List Pt) : Prop :=
  List.Pairwise (fun p q : Pt => s * s ≤ ptDistSq p q) pts

theorem ptDistSq_comm (p q : Pt) : ptDistSq p q = ptDistSq q p := by
  rw [ptDistSq, ptDistSq]
  ring

theorem evaluateTargetPattern_spaced (ctx : TargetCtx) (pattern : String)
    (phaseX phaseY minSpacing : ℤ) :
    spacedPairwise (max 1 minSpacing)
      (evaluateTargetPattern ctx pattern phaseX phaseY minSpacing).acceptedPoints := by
  rw [evaluateTargetPattern]
  have hcell : max 1 (max 1 minSpacing) = max 1 minSpacing :=
    max_eq_right (le_max_left _ _)
  have hs : (0 : ℤ) < max 1 minSpacing := lt_of_lt_of_le one_pos (le_max_left _ _)
  refine foldl_preserve
    (fun (ev : TargetEval) => spacedPairwise (max 1 minSpacing) ev.acceptedPoints)
    _ ?_ _ _ ?_
  · intro ev xy hev
    simp only
    split_ifs with h1 h2 h3
    · exact hev
    · exact hev
    · exact hev
    · rw [spacedPairwise, List.pairwise_append]
      refine ⟨hev, List.pairwise_singleton _ _, ?_⟩
      intro p hp q hq
      rcases List.mem_singleton.mp hq with rfl
      rw [hcell] at h2
      have hcf : hashConflict (max 1 minSpacing) ((max 1 minSpacing) * (max 1 minSpacing))
          ev.acceptedPoints (pyRound xy.1) (pyRound xy.2) = false :=
        Bool.eq_false_iff.mpr h2
      have := hashConflict_false_spacing hs ev.acceptedPoints _ _ hcf p hp
      rw [ptDistSq_comm] at this
      exact this
  · exact List.Pairwise.nil

theorem bestTrial_spaced (ctx : TargetCtx) (pattern : String) (minSpacing : ℤ)
    (trials : List (ℤ × ℤ)) :
    ∀ acc : Option (TargetEval × (ℤ × ℤ × ℤ)),
      (∀ tr sc, acc = some (tr, sc) → spacedPairwise (max 1 minSpacing) tr.acceptedPoints) →
      ∀ tr sc,
        trials.foldl
          (fun acc2 t =>
            let tr2 := evaluateTargetPattern ctx pattern t.1 t.2 minSpacing
            let sc2 := targetScore tr2
            match acc2 with
            | none => some (tr2, sc2)
            | some bp => if targetScoreLt bp.2 sc2 then some (tr2, sc2) else acc2)
          acc = some (tr, sc) →
        spacedPairwise (max 1 minSpacing) tr.acceptedPoints := by
  intro acc hacc
  have := foldl_preserve
    (fun (acc2 : Option (TargetEval × (ℤ × ℤ × ℤ))) =>
      ∀ tr sc, acc2 = some (tr, sc) → spacedPairwise (max 1 minSpacing) tr.acceptedPoints)
    (fun acc2 t =>
      let tr2 := evaluateTargetPattern ctx pattern t.1 t.2 minSpacing
      let sc2 := targetScore tr2
      match acc2 with
      | none => some (tr2, sc2)
      | some bp => if targetScoreLt bp.2 sc2 then some (tr2, sc2) else acc2)
    ?_ trials acc hacc
  · exact this
  · intro s a hs2
    simp only
    cases hs3 : s with
    | none =>
      intro tr sc heq
      simp only [Option.some.injEq, Prod.mk.injEq] at heq
      rw [← heq.1]
      exact evaluateTargetPattern_spaced ctx pattern a.1 a.2 minSpacing
    | some bp =>
      dsimp only
      split_ifs with hlt
      · intro tr sc heq
        simp only [Option.some.injEq, Prod.mk.injEq] at heq
        rw [← heq.1]
        exact evaluateTargetPattern_spaced ctx pattern a.1 a.2 minSpacing
      · intro tr sc heq
        simp only [Option.some.injEq] at heq
        exact hs2 tr sc (by rw [hs3, heq])

theorem contains_iff_mem_nat (l : List ℕ) (a : ℕ) : l.contains a = true ↔ a ∈ l :=
  List.elem_iff

theorem spreadBest_some_spec (points : List Pt) (chosen : List ℕ) (mds : List ℤ) :
    ∀ b, spreadBest points chosen mds = some b → b < points.length ∧ b ∉ chosen := by
  rw [spreadBest]
  refine foldl_preserve_mem
    (fun (acc : Option ℕ) => ∀ b, acc = some b → b < points.length ∧ b ∉ chosen)
    (List.range points.length) _ ?_ none (by intro b h; exact absurd h (by simp))
  intro acc i hi hacc
  dsimp only
  by_cases hcont : chosen.contains i
  · rw [if_pos hcont]
    exact hacc
  · rw [if_neg hcont]
    have hinot : i ∉ chosen := fun hm => hcont ((contains_iff_mem_nat chosen i).mpr hm)
    cases hc : acc with
    | none =>
      intro b hb
      simp only [Option.some.injEq] at hb
      subst hb
      exact ⟨List.mem_range.mp hi, hinot⟩
    | some b0 =>
      dsimp only
      split_ifs with h
      · intro b hb
        simp only [Option.some.injEq] at hb
        subst hb
        exact ⟨List.mem_range.mp hi, hinot⟩
      · rw [hc] at hacc
        exact hacc

theorem spreadBest_aux_ne_none (points : List Pt) (chosen : List ℕ) (mds : List ℤ) :
    ∀ (l : List ℕ) (acc : Option ℕ),
      (acc ≠ none ∨ ∃ i ∈ l, ¬(chosen.contains i = true)) →
      l.foldl
        (fun best i =>
          if chosen.contains i then best
          else
            match best with
            | none => some i
            | some b =>
              let sc := mds.getD i 0
              let bs := mds.getD b 0
              let p := points.getD i (0, 0)
              let pb := points.getD b (0, 0)
              if bs < sc ∨ (sc = bs ∧ (p.2 < pb.2 ∨ (p.2 = pb.2 ∧ p.1 < pb.1))) then some i
              else best)
        acc ≠ none := by
  intro l
  induction l with
  | nil =>
    intro acc hacc
    rcases hacc with h | ⟨i, hi, -⟩
    · exact h
    · exact absurd hi (List.not_mem_nil _)
  | cons a t ih =>
    intro acc hacc
    rw [List.foldl_cons]
    by_cases hcont : chosen.contains a
    · apply ih
      rcases hacc with h | ⟨i, hi, hic⟩
      · rw [if_pos hcont]
        exact Or.inl h
      · rcases List.mem_cons.mp hi with rfl | hit
        · exact absurd hcont hic
        · rw [if_pos hcont]
          exact Or.inr ⟨i, hit, hic⟩
    · apply ih
      left
      rw [if_neg hcont]
      cases acc with
      | none => simp
      | some b =>
        dsimp only
        split_ifs <;> simp

theorem spreadBest_none_spec (points : List Pt) (chosen : List ℕ) (mds : List ℤ)
    (h : spreadBest points chosen mds = none) :
    ∀ i < points.length, i ∈ chosen := by
  intro i hi
  by_contra hnot
  apply spreadBest_aux_ne_none points chosen mds (List.range points.length) none
    (Or.inr ⟨i, List.mem_range.mpr hi, fun hc => hnot ((contains_iff_mem_nat chosen i).mp hc)⟩)
  exact h

theorem spreadLoop_spec (points : List Pt) :
    ∀ (fuel : ℕ) (chosen : List ℕ) (mds : List ℤ),
      chosen.Nodup → (∀ i ∈ chosen, i < points.length) →
      (spreadLoop points fuel chosen mds).Nodup ∧
        (∀ i ∈ spreadLoop points fuel chosen mds, i < points.length) ∧
        (chosen.length + fuel ≤ points.length →
          (spreadLoop points fuel chosen mds).length = chosen.length + fuel) := by
  intro fuel
  induction fuel with
  | zero =>
    intro chosen mds h1 h2
    rw [spreadLoop]
    exact ⟨h1, h2, fun _ => by omega⟩
  | succ k ih =>
    intro chosen mds h1 h2
    rw [spreadLoop]
    cases hb : spreadBest points chosen mds with
    | none =>
      refine ⟨h1, h2, fun hle => ?_⟩
      exfalso
      have hsub : ∀ i ∈ List.range points.length, i ∈ chosen := fun i hi =>
        spreadBest_none_spec points chosen mds hb i (List.mem_range.mp hi)
      have h3 : (List.range points.length).toFinset ⊆ chosen.toFinset := fun x hx =>
        List.mem_toFinset.mpr (hsub x (List.mem_toFinset.mp hx))
      have h4 := Finset.card_le_card h3
      rw [List.toFinset_card_of_nodup (List.nodup_range _)] at h4
      have h5 := List.toFinset_card_le chosen
      rw [List.length_range] at h4
      omega
    | some b =>
      obtain ⟨hblt, hbnotin⟩ := spreadBest_some_spec points chosen mds b hb
      have hnodup2 : (chosen ++ [b]).Nodup := by
        rw [List.nodup_append]
        refine ⟨h1, List.nodup_singleton _, ?_⟩
        intro x hx hxb
        rcases List.mem_singleton.mp hxb with rfl
        exact hbnotin hx
      have hb2 : ∀ i ∈ chosen ++ [b], i < points.length := by
        intro i hi
        rcases List.mem_append.mp hi with hi | hi
        · exact h2 i hi
        · rcases List.mem_singleton.mp hi with rfl
          exact hblt
      obtain ⟨ih1, ih2, ih3⟩ := ih (chosen ++ [b]) _ hnodup2 hb2
      refine ⟨ih1, ih2, fun hle => ?_⟩
      rw [ih3 (by rw [List.length_append, List.length_singleton]; omega)]
      rw [List.length_append, List.length_singleton]
      omega

theorem spreadSeed_lt (cx cy : Q) (points : List Pt) (hpos : 0 < points.length) :
    spreadSeed cx cy points < points.length := by
  rw [spreadSeed]
  refine foldl_preserve_mem (fun (b : ℕ) => b < points.length)
    (List.range points.length) _ ?_ 0 hpos
  intro b i hi _
  dsimp only
  split_ifs with h
  · exact List.mem_range.mp hi
  · assumption

theorem selectSpreadPoints_length (left right top bottom : ℤ) (points : List Pt)
    (wanted : ℤ) (hw : 0 < wanted) (hle : wanted ≤ (points.length : ℤ)) :
    ((selectSpreadPoints left right top bottom points wanted).length : ℤ) = wanted := by
  rw [selectSpreadPoints]
  by_cases hc : wanted ≤ 0 ∨ (points.length : ℤ) ≤ wanted
  · rw [if_pos hc]
    omega
  · rw [if_neg hc]
    push_neg at hc
    have hlen : 0 < points.length := by omega
    have hne : ¬(points.isEmpty = true) := by
      cases points with
      | nil => simp at hlen
      | cons a t => simp
    rw [if_neg hne]
    have hseed := spreadSeed_lt ((Q.ofInt (left + right)).mul Q.half)
      ((Q.ofInt (top + bottom)).mul Q.half) points hlen
    obtain ⟨-, -, hlen3⟩ := spreadLoop_spec points (wanted - 1).toNat
      [spreadSeed ((Q.ofInt (left + right)).mul Q.half)
        ((Q.ofInt (top + bottom)).mul Q.half) points] _
      (List.nodup_singleton _)
      (by
        intro i hi
        rcases List.mem_singleton.mp hi with rfl
        exact hseed)
    rw [List.length_map, hlen3 (by rw [List.length_singleton]; omega),
      List.length_singleton]
    omega

theorem getD_pairwise {R : Pt → Pt → Prop} (hsym : ∀ p q, R p q → R q p)
    (points : List Pt) (hpw : List.Pairwise R points) (idxs : List ℕ)
    (hnd : idxs.Nodup) (hlt : ∀ i ∈ idxs, i < points.length) :
    List.Pairwise R (idxs.map fun i => points.getD i (0, 0)) := by
  rw [List.pairwise_map]
  have hget := List.pairwise_iff_getElem.mp hpw
  refine List.Pairwise.imp_of_mem ?_ hnd
  intro i j hi hj hne
  have hilt := hlt i hi
  have hjlt := hlt j hj
  rw [List.getD_eq_getElem points (0, 0) hilt, List.getD_eq_getElem points (0, 0) hjlt]
  rcases lt_or_gt_of_ne hne with h | h
  · exact hget i j hilt hjlt h
  · exact hsym _ _ (hget j i hjlt hilt h)

theorem selectSpreadPoints_pairwise {R : Pt → Pt → Prop} (hsym : ∀ p q, R p q → R q p)
    (points : List Pt) (hpw : List.Pairwise R points) (left right top bottom wanted : ℤ) :
    List.Pairwise R (selectSpreadPoints left right top bottom points wanted) := by
  rw [selectSpreadPoints]
  by_cases hc : wanted ≤ 0 ∨ (points.length : ℤ) ≤ wanted
  · rw [if_pos hc]
    exact hpw
  · rw [if_neg hc]
    by_cases hne : points.isEmpty = true
    · rw [if_pos hne]
      exact List.Pairwise.nil
    · rw [if_neg hne]
      have hlen : 0 < points.length := by
        cases points with
        | nil => simp at hne
        | cons a t => simp
      have hseed := spreadSeed_lt ((Q.ofInt (left + right)).mul Q.half)
        ((Q.ofInt (top + bottom)).mul Q.half) points hlen
      obtain ⟨hnd, hbound, -⟩ := spreadLoop_spec points (wanted - 1).toNat
        [spreadSeed ((Q.ofInt (left + right)).mul Q.half)
          ((Q.ofInt (top + bottom)).mul Q.half) points] _
        (List.nodup_singleton _)
        (by
          intro i hi
          rcases List.mem_singleton.mp hi with rfl
          exact hseed)
      exact getD_pairwise hsym points hpw _ hnd hbound

theorem targetBestTrial_spaced (ctx : TargetCtx) (pattern : String) (minSpacing : ℤ)
    (tr : TargetEval) (sc : ℤ × ℤ × ℤ)
    (h : targetBestTrial ctx pattern minSpacing = some (tr, sc)) :
    spacedPairwise (max 1 minSpacing) tr.acceptedPoints := by
  rw [targetBestTrial] at h
  exact bestTrial_spaced ctx pattern minSpacing _ none
    (by intro tr2 sc2 h2; exact absurd h2 (by simp)) tr sc h

theorem runTargetPatternFirst_success (ctx : TargetCtx) (patternName : String)
    (targetLimit minSpacing : ℤ) (out : TargetOutcome)
    (hout : runTargetPatternFirst ctx patternName targetLimit minSpacing true = out)
    (h1 : 0 < targetLimit) (h2 : targetLimit ≤ (out.targetAvailable : ℤ)) :
    out.success = true ∧ (out.points.length : ℤ) = targetLimit ∧
      out.points.length = out.inserted ∧
      spacedPairwise (max 1 minSpacing) out.points := by
  subst hout
  rw [runTargetPatternFirst] at h2 ⊢
  cases hbest : targetBestTrial ctx (normalizeTargetPattern patternName) minSpacing with
  | none =>
    exfalso
    rw [hbest] at h2
    dsimp only at h2
    omega
  | some bp =>
    rw [hbest] at h2
    dsimp only at h2 ⊢
    split_ifs at h2 ⊢ with hc1 hc2
    · exfalso
      dsimp only at h2
      simp only [Bool.not_eq_true', Bool.and_eq_false_iff, decide_eq_false_iff_not] at hc1
      rcases hc1 with hc1 | hc1
      · exact hc1 h1
      · exact hc1 h2
    · exfalso
      rcases hc2 with ⟨-, hw⟩
      simp at hw
    · refine ⟨rfl, ?_, rfl, ?_⟩
      · dsimp only at h2
        exact selectSpreadPoints_length ctx.left ctx.right ctx.top ctx.bottom
          bp.1.acceptedPoints targetLimit h1 h2
      · rw [spacedPairwise]
        refine selectSpreadPoints_pairwise
          (fun p q h => by rwa [ptDistSq_comm] at h)
          bp.1.acceptedPoints ?_ ctx.left ctx.right ctx.top ctx.bottom targetLimit
        exact targetBestTrial_spaced ctx _ minSpacing bp.1 bp.2
          (by rw [hbest])

theorem runTargetPatternFirst_fail_points (ctx : TargetCtx) (patternName : String)
    (targetLimit minSpacing : ℤ) (warningOk : Bool)
    (hs : (runTargetPatternFirst ctx patternName targetLimit minSpacing warningOk).success
        = false)
    (hc : (runTargetPatternFirst ctx patternName targetLimit minSpacing warningOk).canceled
        = false) :
    (runTargetPatternFirst ctx patternName targetLimit minSpacing warningOk).points.length =
      (runTargetPatternFirst ctx patternName targetLimit minSpacing warningOk).targetAvailable
      := by
  rw [runTargetPatternFirst] at hs hc ⊢
  cases hbest : targetBestTrial ctx (normalizeTargetPattern patternName) minSpacing with
  | none => rfl
  | some bp =>
    rw [hbest] at hs hc
    dsimp only at hs hc ⊢
    split_ifs at hs hc ⊢ with hc1 hc2
    rfl

theorem targetModeDeclined_count (ctx : TargetCtx) (patternName : String)
    (targetCount spacingMin : ℤ) (warningOk : Bool)
    (hs : (runTargetPatternFirst ctx patternName targetCount spacingMin warningOk).success
        = false)
    (hc : (runTargetPatternFirst ctx patternName targetCount spacingMin warningOk).canceled
        = false) :
    (targetModeDeclined ctx patternName targetCount spacingMin warningOk true).inserted =
      (targetModeDeclined ctx patternName targetCount spacingMin warningOk true).targetAvailable
      := by
  have hlen := runTargetPatternFirst_fail_points ctx patternName targetCount spacingMin
    warningOk hs hc
  rw [targetModeDeclined]
  dsimp only
  rw [if_neg (by rw [hc]; exact Bool.false_ne_true), if_neg (by rw [hs]; exact Bool.false_ne_true)]
  rw [if_neg (by intro h; rcases h with ⟨-, hw⟩; simp at hw)]
  exact hlen

/-- C4: In target-count mode with the large-placement warning accepted,
whenever the requested target is positive and the best deterministic
pattern attempt accepts at least that many points, the run succeeds and
returns exactly the requested number of points, all pairwise at squared
distance at least the square of the selection spacing `max 1 minSpacing`;
and whenever the deterministic attempt ends unsuccessfully without being
canceled and the heuristic maximize-pack fallback is declined, the
returned count equals the attempt's `target_available` — in particular it
differs from `target_requested` whenever those two disagree. -/
theorem claim_C4 (ctx : TargetCtx) (patternName : String)
    (targetLimit minSpacing : ℤ) (warningOk : Bool) :
    (0 < targetLimit →
      targetLimit ≤
        ((runTargetPatternFirst ctx patternName targetLimit minSpacing true).targetAvailable :
          ℤ) →
      (runTargetPatternFirst ctx patternName targetLimit minSpacing true).success = true ∧
        ((runTargetPatternFirst ctx patternName targetLimit minSpacing true).points.length : ℤ)
          = targetLimit ∧
        spacedPairwise (max 1 minSpacing)
          (runTargetPatternFirst ctx patternName targetLimit minSpacing true).points) ∧
    ((runTargetPatternFirst ctx patternName targetLimit minSpacing warningOk).success = false →
      (runTargetPatternFirst ctx patternName targetLimit minSpacing warningOk).canceled
        = false →
      (targetModeDeclined ctx patternName targetLimit minSpacing warningOk true).inserted =
        (targetModeDeclined ctx patternName targetLimit minSpacing warningOk
          true).targetAvailable ∧
        (((targetModeDeclined ctx patternName targetLimit minSpacing warningOk
              true).targetAvailable : ℤ) ≠ targetLimit →
          ((targetModeDeclined ctx patternName targetLimit minSpacing warningOk
              true).inserted : ℤ) ≠ targetLimit)) := by
  constructor
  · intro h1 h2
    obtain ⟨hsucc, hlen, -, hsp⟩ := runTargetPatternFirst_success ctx patternName targetLimit
      minSpacing _ rfl h1 h2
    exact ⟨hsucc, hlen, hsp⟩
  · intro hs hc
    have hcount := targetModeDeclined_count ctx patternName targetLimit minSpacing warningOk
      hs hc
    refine ⟨hcount, fun hne hins => hne ?_⟩
    omega

set_option maxRecDepth 10000 in
theorem claim_C4_witness :
    ((runTargetPatternFirst c4ctx "Grid" 2 5 true).success = true ∧
      ((runTargetPatternFirst c4ctx "Grid" 2 5 true).points.length : ℤ) = 2 ∧
      spacedPairwise (max 1 5) (runTargetPatternFirst c4ctx "Grid" 2 5 true).points) ∧
    ((targetModeDeclined c4ctx "Grid" 100 5 true true).inserted =
        (targetModeDeclined c4ctx "Grid" 100 5 true true).targetAvailable ∧
      (((targetModeDeclined c4ctx "Grid" 100 5 true true).targetAvailable : ℤ) ≠ 100 →
        ((targetModeDeclined c4ctx "Grid" 100 5 true true).inserted : ℤ) ≠ 100)) :=
  ⟨(claim_C4 c4ctx "Grid" 2 5 true).1 (by decide) (by decide),
   (claim_C4 c4ctx "Grid" 100 5 true).2 (by decide) (by decide)⟩

end ViaStitching
